import Mathlib

/-!
# Verification of the mtg-swiss-simulator core

Shallow embedding of the Swiss-tournament simulator's core algorithms and
proofs of the specification's claims about them.

* Namespace `Csv` embeds `generate-bubble-csv.js` (the batch script):
  `isSafeForCut`, `pairPlayers`, `simulateMatch`, `rankPlayers`, `processRound`.
* Namespace `Jsx` embeds `src/SwissTournamentSimulator.jsx` (the three-regime
  intentional-draw checker and the record-distribution aggregation):
  `maxSeventhAfterNRounds`, `isSafeEarlierRound`, `isSafeForCut`,
  `processSimulationResults` (record-analysis part).

Modelling conventions: JavaScript numbers holding integral scores/rounds are
`Int`; random rolls, draw percentages and win rates are exact rationals
(`Rat`); array indexing that JavaScript answers with `undefined` is `Option`
(an access followed by a property read that would throw a `TypeError` makes
the function return `none`); player arrays are `List Player`, with the
script's in-place `playerScores[i]` mutations rendered as positional updates.
-/

/-- Per-player record, as created by the simulators
(`{ id, points, wins, losses, draws, opponents, opponentWinPercentage }`). -/
structure Player where
  id : Nat
  points : Int
  wins : Nat
  losses : Nat
  draws : Nat
  opponents : List Nat
  opponentWinPercentage : Rat
deriving DecidableEq, Inhabited

/-- Shape of the object `simulateMatch` returns:
`{ winner, loser, draw, bye }` with the two player references. -/
inductive SimResult where
  | bye (winner : Player)
  | draw
  | decisive (winner loser : Player)
deriving DecidableEq

/-- Trace of one processed pairing inside `processRound`, recording the array
indices (`p1.id` / `p2.id` / `result.winner.id` ...) that were updated. -/
inductive MatchResult where
  | bye (id1 : Nat)
  | draw (id1 id2 : Nat)
  | decisive (winnerId loserId : Nat)
deriving DecidableEq

/-- JavaScript array access `l[i]`: `undefined` (`none`) when out of range,
including negative indices. -/
def jsIndex (l : List α) (i : Int) : Option α :=
  if i < 0 then none else l.get? i.toNat

/-- Positional update `l[i] = f l[i]`; out-of-range indices leave the list
unchanged (such an access never happens in the simulator's runs). -/
def updAt : List α → Nat → (α → α) → List α
  | [], _, _ => []
  | x :: rest, 0, f => f x :: rest
  | x :: rest, n + 1, f => x :: updAt rest n f

/-- The comparator `(a, b) => b.points - a.points, then a.id - b.id` used by
`pairPlayers` (and for the `others` list of the jsx `isSafeForCut`). -/
def pairRel (a b : Player) : Prop :=
  b.points < a.points ∨ (b.points = a.points ∧ a.id ≤ b.id)

instance : DecidableRel pairRel := fun a b => by
  unfold pairRel; infer_instance

instance : IsTotal Player pairRel where
  total a b := by
    unfold pairRel
    rcases lt_trichotomy a.points b.points with h | h | h
    · exact Or.inr (Or.inl h)
    · rcases Nat.le_total a.id b.id with h' | h'
      · exact Or.inl (Or.inr ⟨h.symm, h'⟩)
      · exact Or.inr (Or.inr ⟨h, h'⟩)
    · exact Or.inl (Or.inl h)

instance : IsTrans Player pairRel where
  trans a b c hab hbc := by
    unfold pairRel at *
    rcases hab with h1 | ⟨h1, h1'⟩ <;> rcases hbc with h2 | ⟨h2, h2'⟩
    · exact Or.inl (h2.trans h1)
    · exact Or.inl (h2 ▸ h1)
    · exact Or.inl (h1 ▸ h2)
    · exact Or.inr ⟨h2.trans h1, le_trans h1' h2'⟩

/-- Descending numeric sort `(a, b) => b - a` on a list of scores. -/
def sortDescI (l : List Int) : List Int :=
  List.insertionSort (fun a b => b ≤ a) l

instance : IsTotal Int (fun a b => b ≤ a) where
  total a b := le_total b a

instance : IsTrans Int (fun a b => b ≤ a) where
  trans _ _ _ hab hbc := le_trans hbc hab

namespace Csv

/-- `isSafeForCut` of `generate-bubble-csv.js`: count, over all other players,
those whose maximal final score can still reach the player's
score-after-draw; safe iff that count is below the cut. -/
def isSafeForCut (player opponent : Player) (allPlayers : List Player)
    (cut : Nat) (currentRound totalRounds : Int) : Bool :=
  let playerScoreAfterDraw := player.points + 1
  let minFinalPlayerScore := playerScoreAfterDraw
  let potentialPassers :=
    (allPlayers.filter (fun p =>
      p.id ≠ player.id ∧
      minFinalPlayerScore ≤
        (if p.id = opponent.id then
          p.points + 1 + 3 * (totalRounds - currentRound)
        else
          p.points + 3 * (totalRounds - (currentRound - 1))))).length
  decide (potentialPassers < cut)

/-- `pairPlayers` inner scan: find the first player later in the sorted
sequence whose id is not yet used. -/
def findUnused (used : List Nat) : List Player → Option Player
  | [] => none
  | p :: rest => if p.id ∈ used then findUnused used rest else some p

/-- `pairPlayers` outer loop: scan the sorted sequence, pairing each unused
player with the next unused one; returns the pairs and the used-id set. -/
def pairPass (used : List Nat) : List Player → List (Player × Player) × List Nat
  | [] => ([], used)
  | p :: rest =>
    if p.id ∈ used then pairPass used rest
    else
      match findUnused used rest with
      | none => pairPass used rest
      | some q =>
        let res := pairPass (q.id :: p.id :: used) rest
        ((p, q) :: res.1, res.2)

/-- `pairPlayers`: sort by (points descending, id ascending), sequentially
pair adjacent unused players, and give the leftover player (if any) a bye
(`none` in the second component). -/
def pairPlayers (playerScores : List Player) : List (Player × Option Player) :=
  let sorted := List.insertionSort pairRel playerScores
  let res := pairPass [] sorted
  let pairs := res.1.map (fun pr => (pr.1, some pr.2))
  if res.2.dedup.length < sorted.length then
    (sorted.find? (fun p => decide (p.id ∉ res.2))).elim pairs
      (fun byePlayer => pairs ++ [(byePlayer, none)])
  else pairs

/-- The guard of `simulateMatch`'s intentional-draw branch:
`useID && totalRounds > 0 && totalRounds - currentRound <= 2 && p1Safe && p2Safe`. -/
def idDrawCheck (player1 player2 : Player) (useID : Bool)
    (allPlayers : List Player) (currentRound totalRounds : Int)
    (cutSize : Nat) : Bool :=
  useID && decide (0 < totalRounds) && decide (totalRounds - currentRound ≤ 2) &&
    isSafeForCut player1 player2 allPlayers cutSize currentRound totalRounds &&
    isSafeForCut player2 player1 allPlayers cutSize currentRound totalRounds

/-- `simulateMatch` of `generate-bubble-csv.js`. `rand` is the roll in
`[0, 100)` supplied by `getMatchOutcome`. -/
def simulateMatch (player1 : Player) (player2 : Option Player)
    (drawPercent : Rat) (useID : Bool) (allPlayers : List Player)
    (currentRound totalRounds : Int) (cutSize : Nat) (rand : Rat) : SimResult :=
  match player2 with
  | none => .bye player1
  | some p2 =>
    if idDrawCheck player1 p2 useID allPlayers currentRound totalRounds cutSize then
      .draw
    else if rand < drawPercent then .draw
    else if rand < 50 + drawPercent / 2 then .decisive player1 p2
    else .decisive p2 player1

/-- Opponent-win-percentage computation inside `rankPlayers`: for a player
with opponents, average `(wins + draws*0.5)/games` over the opponent entries
(0 for a missing opponent or one with zero games); 0 with no opponents. -/
def computeOwp (playerScores : List Player) (player : Player) : Rat :=
  if 0 < player.opponents.length then
    let opponentWinPercentages := player.opponents.map (fun oppId =>
      (playerScores.get? oppId).elim 0 (fun opponent =>
        let totalGames := opponent.wins + opponent.losses + opponent.draws
        if 0 < totalGames then
          ((opponent.wins : Rat) + (opponent.draws : Rat) * (1 / 2)) /
            ((totalGames : Nat) : Rat)
        else 0))
    opponentWinPercentages.sum / (opponentWinPercentages.length : Rat)
  else 0

/-- The ranking comparator: points descending, then opponent win percentage
descending, then id ascending. -/
def rankRel (a b : Player) : Prop :=
  b.points < a.points ∨
    (b.points = a.points ∧
      (b.opponentWinPercentage < a.opponentWinPercentage ∨
        (b.opponentWinPercentage = a.opponentWinPercentage ∧ a.id ≤ b.id)))

instance : DecidableRel rankRel := fun a b => by
  unfold rankRel; infer_instance

instance : IsTotal Player rankRel where
  total a b := by
    unfold rankRel
    rcases lt_trichotomy a.points b.points with h | h | h
    · exact Or.inr (Or.inl h)
    · rcases lt_trichotomy a.opponentWinPercentage b.opponentWinPercentage with h' | h' | h'
      · exact Or.inr (Or.inr ⟨h, Or.inl h'⟩)
      · rcases Nat.le_total a.id b.id with h'' | h''
        · exact Or.inl (Or.inr ⟨h.symm, Or.inr ⟨h'.symm, h''⟩⟩)
        · exact Or.inr (Or.inr ⟨h, Or.inr ⟨h', h''⟩⟩)
      · exact Or.inl (Or.inr ⟨h.symm, Or.inl h'⟩)
    · exact Or.inl (Or.inl h)

instance : IsTrans Player rankRel where
  trans a b c hab hbc := by
    unfold rankRel at *
    rcases hab with h1 | ⟨h1, h1'⟩ <;> rcases hbc with h2 | ⟨h2, h2'⟩
    · exact Or.inl (h2.trans h1)
    · exact Or.inl (h2 ▸ h1)
    · exact Or.inl (h1 ▸ h2)
    · refine Or.inr ⟨h2.trans h1, ?_⟩
      rcases h1' with h1' | ⟨h1', h1''⟩ <;> rcases h2' with h2' | ⟨h2', h2''⟩
      · exact Or.inl (h2'.trans h1')
      · exact Or.inl (h2' ▸ h1')
      · exact Or.inl (h1' ▸ h2')
      · exact Or.inr ⟨h2'.trans h1', le_trans h1'' h2''⟩

/-- The strict version of `rankRel` (id tie broken strictly): what holds
between adjacent standings rows when ids are distinct. -/
def rankLT (a b : Player) : Prop :=
  b.points < a.points ∨
    (b.points = a.points ∧
      (b.opponentWinPercentage < a.opponentWinPercentage ∨
        (b.opponentWinPercentage = a.opponentWinPercentage ∧ a.id < b.id)))

/-- `rankPlayers`: fill in every player's `opponentWinPercentage`, then sort
by (points, OWP, id). -/
def rankPlayers (playerScores : List Player) : List Player :=
  let withOwp := playerScores.map (fun p =>
    { p with opponentWinPercentage := computeOwp playerScores p })
  List.insertionSort rankRel withOwp

/-- Apply one `simulateMatch` result to the player array, exactly as the
branches of `processRound` do (`playerScores[x].field += ...`,
`opponents.push`). -/
def applyResult (state : List Player) : MatchResult → List Player
  | .bye i =>
    updAt state i (fun p => { p with points := p.points + 3, wins := p.wins + 1 })
  | .draw i j =>
    updAt
      (updAt state i (fun p =>
        { p with points := p.points + 1, draws := p.draws + 1,
                 opponents := p.opponents ++ [j] }))
      j (fun p =>
        { p with points := p.points + 1, draws := p.draws + 1,
                 opponents := p.opponents ++ [i] })
  | .decisive w l =>
    updAt
      (updAt state w (fun p =>
        { p with points := p.points + 3, wins := p.wins + 1,
                 opponents := p.opponents ++ [l] }))
      l (fun p =>
        { p with losses := p.losses + 1, opponents := p.opponents ++ [w] })

/-- Resolve one pairing of `processRound` against the current state: a bye is
credited directly; otherwise the two live player records are looked up by id
and `simulateMatch` decides the result. `none` models the crash of a lookup
of an absent player. -/
def resolvePair (state : List Player) (drawPercent : Rat) (useID : Bool)
    (cutSize : Nat) (round numRounds : Int) (getMatchOutcome : Nat → Nat → Rat)
    (pr : Player × Option Player) : Option MatchResult :=
  match pr with
  | (p1, none) => some (.bye p1.id)
  | (p1, some p2) =>
    (state.get? p1.id).bind (fun q1 =>
      (state.get? p2.id).map (fun q2 =>
        match simulateMatch q1 (some q2) drawPercent useID state round numRounds
            cutSize (getMatchOutcome p1.id p2.id) with
        | .draw => .draw p1.id p2.id
        | .decisive w l => .decisive w.id l.id
        | .bye _ => .bye p1.id))

/-- `processRound`, also returning the trace of match results produced this
round (one entry per pairing that resolved). -/
def processRoundAux (drawPercent : Rat) (useID : Bool) (cutSize : Nat)
    (round numRounds : Int) (getMatchOutcome : Nat → Nat → Rat) :
    List Player → List (Player × Option Player) → List Player × List MatchResult
  | state, [] => (state, [])
  | state, pr :: rest =>
    (resolvePair state drawPercent useID cutSize round numRounds
        getMatchOutcome pr).elim
      (processRoundAux drawPercent useID cutSize round numRounds
        getMatchOutcome state rest)
      (fun r =>
        let res := processRoundAux drawPercent useID cutSize round numRounds
          getMatchOutcome (applyResult state r) rest
        (res.1, r :: res.2))

/-- `processRound` of `generate-bubble-csv.js`: fold every pairing's result
into the player array. -/
def processRound (state : List Player) (pairs : List (Player × Option Player))
    (drawPercent : Rat) (useID : Bool) (cutSize : Nat) (round numRounds : Int)
    (getMatchOutcome : Nat → Nat → Rat) : List Player :=
  (processRoundAux drawPercent useID cutSize round numRounds getMatchOutcome
    state pairs).1

/-- Fresh player array of `runSimulations`: ids `0..n-1`, all counters zero. -/
def initPlayers (n : Nat) : List Player :=
  (List.range n).map (fun j => ⟨j, 0, 0, 0, 0, [], 0⟩)

end Csv

namespace Jsx

/-- One iteration of the Swiss-constrained projection inside
`maxSeventhAfterNRounds`: group scores by value; in each group (visited in
descending score order) `ceil(count/2)` members gain 3 points, the rest keep
their score. -/
def projectOneRound (current : List Int) : List Int :=
  (sortDescI current.dedup).flatMap (fun s =>
    let count := current.count s
    let winners := (count + 1) / 2
    List.replicate winners (s + 3) ++ List.replicate (count - winners) s)

/-- The `for (let r = 0; r < rounds; r++)` loop of `maxSeventhAfterNRounds`. -/
def projectRounds (scores : List Int) : Nat → List Int
  | 0 => scores
  | n + 1 => projectRounds (projectOneRound scores) n

/-- `maxSeventhAfterNRounds`: -1 when fewer than 7 scores are given;
otherwise the value at the hardcoded index 6 of the descending sort of the
projected scores (the index is always in range, so the `getD` default is
never used). -/
def maxSeventhAfterNRounds (scores : List Int) (rounds : Nat) : Int :=
  if scores.length < 7 then -1
  else (sortDescI (projectRounds scores rounds)).getD 6 0

/-- `isSafeEarlierRound`: bucket by current score the other players who could
still out-point the player's score-after-draw by winning out; at most
`ceil(bucket/2)` per bucket are counted as realistic threats; safe iff the
total is below the cut. -/
def isSafeEarlierRound (player opponent : Player) (allPlayers : List Player)
    (cutSize : Nat) (playerScoreAfterDraw roundsRemaining : Int) : Bool :=
  let threatScores :=
    (allPlayers.filter (fun p =>
      ¬(p.id = player.id ∨ p.id = opponent.id) ∧
      playerScoreAfterDraw < p.points + 3 * (1 + roundsRemaining))).map Player.points
  let realisticThreats :=
    (threatScores.dedup.map (fun s => (threatScores.count s + 1) / 2)).sum
  decide (realisticThreats < cutSize)

/-- The `others` list of the jsx `isSafeForCut`: everyone but the player and
opponent, sorted by (points descending, id ascending). -/
def sortedOthers (player opponent : Player) (allPlayers : List Player) :
    List Player :=
  List.insertionSort pairRel
    (allPlayers.filter (fun p => p.id ≠ player.id ∧ p.id ≠ opponent.id))

/-- The three-regime `isSafeForCut` of `SwissTournamentSimulator.jsx`.
`none` models the `TypeError` thrown by `others[cut - 2].points` when the
index is out of range (it is read before any regime is dispatched). -/
def isSafeForCut (player opponent : Player) (allPlayers : List Player)
    (cut : Nat) (currentRound totalRounds : Int) : Option Bool :=
  let playerScoreAfterDraw := player.points + 1
  let roundsRemaining := totalRounds - currentRound
  let others := sortedOthers player opponent allPlayers
  if others.length < cut then some true
  else
    (jsIndex others ((cut : Int) - 2)).map (fun boundaryOther =>
      let seventhBestOtherPoints := boundaryOther.points
      if roundsRemaining = 0 then
        decide (playerScoreAfterDraw > seventhBestOtherPoints + 3)
      else if roundsRemaining = 1 then
        let ourScoreAfterTwoDraws := player.points + 2
        let otherScores := others.map Player.points
        decide (ourScoreAfterTwoDraws > maxSeventhAfterNRounds otherScores 2)
      else
        isSafeEarlierRound player opponent allPlayers cut
          playerScoreAfterDraw roundsRemaining)

/-- Canonical record pattern `(wins, losses, draws)`. Record strings are
modelled as these triples: `getRecordString` followed by `isTargetRecord`'s
`split('-').map(Number)` parse is the identity on the triple. -/
structure RecordPat where
  wins : Nat
  losses : Nat
  draws : Nat
deriving DecidableEq

/-- `isTargetRecord` composed with `getRecordString`: map a player's
`(wins, losses, draws)` to its canonical target pattern, or `none` when the
record matches no target shape. -/
def isTargetRecord (wins losses draws : Nat) : Option RecordPat :=
  if losses = 0 ∧ draws = 0 then some ⟨wins, 0, 0⟩
  else if losses = 0 ∧ draws = 1 then some ⟨wins, 0, 1⟩
  else if losses = 1 ∧ draws = 0 then some ⟨wins, 1, 0⟩
  else if losses = 1 ∧ draws = 1 then some ⟨wins, 1, 1⟩
  else if losses = 2 ∧ draws = 0 then some ⟨wins, 2, 0⟩
  else none

/-- Implied points `wins*3 + draws` of a record pattern. -/
def recPoints (r : RecordPat) : Int := 3 * r.wins + r.draws

/-- `compareRecords`: better records sort first (higher points, then fewer
losses, then fewer draws); negative result means `a` sorts before `b`. -/
def compareRecords (a b : RecordPat) : Int :=
  if recPoints b ≠ recPoints a then recPoints b - recPoints a
  else if (a.losses : Int) ≠ (b.losses : Int) then (a.losses : Int) - (b.losses : Int)
  else (a.draws : Int) - (b.draws : Int)

/-- The five target thresholds of `processSimulationResults`. -/
def targetRecords (numRounds : Nat) : List RecordPat :=
  [⟨numRounds, 0, 0⟩, ⟨numRounds - 1, 0, 1⟩, ⟨numRounds - 1, 1, 0⟩,
   ⟨numRounds - 2, 1, 1⟩, ⟨numRounds - 2, 2, 0⟩]

/-- Per-trial count of players whose canonical record pattern is the target
record or better. -/
def recordAndBetterCount (tournamentResult : List Player) (record : RecordPat) :
    Nat :=
  (tournamentResult.filter (fun p =>
    match isTargetRecord p.wins p.losses p.draws with
    | some targetRecord => decide (compareRecords targetRecord record ≤ 0)
    | none => false)).length

/-- Distribution built from the per-trial counts: only counts `> 0` become
buckets; each bucket maps to `100 * occurrences / numSimulations` (held
exact here; the source renders it with `toFixed(1)`). -/
def recordDistribution (counts : List Nat) (numSimulations : Nat) :
    List (Nat × Rat) :=
  ((counts.filter (fun c => decide (0 < c))).dedup).map
    (fun v => (v, (counts.count v : Rat) * 100 / (numSimulations : Rat)))

/-- Record-analysis part of `processSimulationResults`: for each target
record with a nonempty distribution, the distribution of per-trial
record-or-better counts. -/
def processRecordResults (allSimResults : List (List Player))
    (numSimulations numRounds : Nat) : List (RecordPat × List (Nat × Rat)) :=
  (targetRecords numRounds).filterMap (fun record =>
    let counts := allSimResults.map (fun tr => recordAndBetterCount tr record)
    let dist := recordDistribution counts numSimulations
    if dist.isEmpty then none else some (record, dist))

end Jsx

/-- The boundary value claimed for the penultimate regime: the value at index
`cutSize - 2` of the descending sort of the 2-iteration Swiss projection of
the other players' scores. Stated from the claim's words, to compare with
the code's hardcoded index 6. -/
def claimedPenultimateBoundary (otherScores : List Int) (cutSize : Nat) : Int :=
  (sortDescI (Jsx.projectRounds otherScores 2)).getD (cutSize - 2) 0

section JsxSafetyLemmas

/-- JavaScript `others[cut - 2]` reads index `cut - 2` when `2 ≤ cut`. -/
theorem jsIndex_natCast_sub_two {α : Type} (l : List α) (cut : Nat)
    (h2 : 2 ≤ cut) : jsIndex l ((cut : Int) - 2) = l.get? (cut - 2) := by
  unfold jsIndex
  rw [if_neg (by omega : ¬((cut : Int) - 2 < 0))]
  congr 1
  omega

end JsxSafetyLemmas

/-- C3: final-round regime. With `roundsRemaining = 0`: fewer than `cutSize`
others means safe; otherwise (for a meaningful boundary index, `cutSize ≥ 2`)
safe iff `player.points + 1` strictly exceeds the boundary other's points
plus 3, ties counting as unsafe. The spec's concrete example (cut 8, player
at 9 points, two others at 12 and six at 9) comes out unsafe. -/
theorem isSafeForCut_final_round :
    (∀ (player opponent : Player) (allPlayers : List Player) (cut : Nat)
      (cr tr : Int),
      (Jsx.sortedOthers player opponent allPlayers).length < cut →
      Jsx.isSafeForCut player opponent allPlayers cut cr tr = some true) ∧
    (∀ (player opponent : Player) (allPlayers : List Player) (cut : Nat)
      (cr tr : Int),
      tr - cr = 0 → 2 ≤ cut →
      cut ≤ (Jsx.sortedOthers player opponent allPlayers).length →
      (Jsx.isSafeForCut player opponent allPlayers cut cr tr = some true ↔
        ((Jsx.sortedOthers player opponent allPlayers).getD (cut - 2)
            default).points + 3 < player.points + 1)) ∧
    Jsx.isSafeForCut ⟨0, 9, 0, 0, 0, [], 0⟩ ⟨1, 9, 0, 0, 0, [], 0⟩
      [⟨0, 9, 0, 0, 0, [], 0⟩, ⟨1, 9, 0, 0, 0, [], 0⟩, ⟨2, 12, 0, 0, 0, [], 0⟩,
       ⟨3, 12, 0, 0, 0, [], 0⟩, ⟨4, 9, 0, 0, 0, [], 0⟩, ⟨5, 9, 0, 0, 0, [], 0⟩,
       ⟨6, 9, 0, 0, 0, [], 0⟩, ⟨7, 9, 0, 0, 0, [], 0⟩, ⟨8, 9, 0, 0, 0, [], 0⟩,
       ⟨9, 9, 0, 0, 0, [], 0⟩] 8 5 5 = some false := by
  refine ⟨?_, ?_, by decide⟩
  · intro player opponent allPlayers cut cr tr hlt
    simp only [Jsx.isSafeForCut]
    rw [if_pos hlt]
  · intro player opponent allPlayers cut cr tr hrr h2 hlen
    have hidx : cut - 2 < (Jsx.sortedOthers player opponent allPlayers).length := by
      omega
    simp only [Jsx.isSafeForCut]
    rw [if_neg (by omega :
      ¬((Jsx.sortedOthers player opponent allPlayers).length < cut))]
    rw [jsIndex_natCast_sub_two _ _ h2, List.get?_eq_get hidx]
    simp only [Option.map_some']
    rw [if_pos hrr]
    simp only [Option.some_inj, decide_eq_true_eq,
      List.getD_eq_getElem _ _ hidx, List.get_eq_getElem]

/-- C10: the boundary access `others[cut - 2]` is in range whenever
`cutSize ≥ 2` (so the checker is total there), but with `cutSize = 1` and at
least one other player the read is out of range and evaluating `.points` on
`undefined` is reached before any regime dispatch. -/
theorem isSafeForCut_totality_edge :
    (∀ (player opponent : Player) (allPlayers : List Player) (cut : Nat)
      (cr tr : Int), 2 ≤ cut →
      (cut ≤ (Jsx.sortedOthers player opponent allPlayers).length →
        cut - 2 < (Jsx.sortedOthers player opponent allPlayers).length) ∧
      (Jsx.isSafeForCut player opponent allPlayers cut cr tr).isSome = true) ∧
    (∀ (player opponent : Player) (allPlayers : List Player) (cr tr : Int),
      1 ≤ (Jsx.sortedOthers player opponent allPlayers).length →
      Jsx.isSafeForCut player opponent allPlayers 1 cr tr = none) := by
  constructor
  · intro player opponent allPlayers cut cr tr h2
    refine ⟨fun hlen => by omega, ?_⟩
    simp only [Jsx.isSafeForCut]
    by_cases hlt : (Jsx.sortedOthers player opponent allPlayers).length < cut
    · rw [if_pos hlt]; rfl
    · rw [if_neg hlt]
      have hidx : cut - 2 < (Jsx.sortedOthers player opponent allPlayers).length := by
        omega
      rw [jsIndex_natCast_sub_two _ _ h2, List.get?_eq_get hidx]
      rfl
  · intro player opponent allPlayers cr tr hlen
    simp only [Jsx.isSafeForCut]
    rw [if_neg (by omega :
      ¬((Jsx.sortedOthers player opponent allPlayers).length < 1))]
    have hj : jsIndex (Jsx.sortedOthers player opponent allPlayers)
        (((1 : Nat) : Int) - 2) = none := by
      unfold jsIndex
      rw [if_pos (by omega)]
    rw [hj]
    rfl

/-- C10 witness: at a concrete three-player field, the checker answers for
`cutSize = 2` and crashes for `cutSize = 1`. -/
theorem isSafeForCut_totality_edge_witness :
    2 ≤ 2 ∧
    (Jsx.isSafeForCut ⟨0, 0, 0, 0, 0, [], 0⟩ ⟨1, 0, 0, 0, 0, [], 0⟩
      [⟨0, 0, 0, 0, 0, [], 0⟩, ⟨1, 0, 0, 0, 0, [], 0⟩, ⟨2, 0, 0, 0, 0, [], 0⟩]
      2 4 5).isSome = true ∧
    1 ≤ (Jsx.sortedOthers ⟨0, 0, 0, 0, 0, [], 0⟩ ⟨1, 0, 0, 0, 0, [], 0⟩
      [⟨0, 0, 0, 0, 0, [], 0⟩, ⟨1, 0, 0, 0, 0, [], 0⟩, ⟨2, 0, 0, 0, 0, [], 0⟩]).length ∧
    Jsx.isSafeForCut ⟨0, 0, 0, 0, 0, [], 0⟩ ⟨1, 0, 0, 0, 0, [], 0⟩
      [⟨0, 0, 0, 0, 0, [], 0⟩, ⟨1, 0, 0, 0, 0, [], 0⟩, ⟨2, 0, 0, 0, 0, [], 0⟩]
      1 4 5 = none :=
  ⟨by decide,
   (isSafeForCut_totality_edge.1 ⟨0, 0, 0, 0, 0, [], 0⟩ ⟨1, 0, 0, 0, 0, [], 0⟩
     [⟨0, 0, 0, 0, 0, [], 0⟩, ⟨1, 0, 0, 0, 0, [], 0⟩, ⟨2, 0, 0, 0, 0, [], 0⟩]
     2 4 5 (by decide)).2,
   by decide,
   isSafeForCut_totality_edge.2 ⟨0, 0, 0, 0, 0, [], 0⟩ ⟨1, 0, 0, 0, 0, [], 0⟩
     [⟨0, 0, 0, 0, 0, [], 0⟩, ⟨1, 0, 0, 0, 0, [], 0⟩, ⟨2, 0, 0, 0, 0, [], 0⟩]
     4 5 (by decide)⟩

/-- C3 witness: concrete instantiation of the final-round boundary rule at a
field of eight others, all hypotheses discharged. -/
theorem isSafeForCut_final_round_witness :
    (5 : Int) - 5 = 0 ∧ 2 ≤ 8 ∧
    8 ≤ (Jsx.sortedOthers ⟨0, 20, 0, 0, 0, [], 0⟩ ⟨1, 9, 0, 0, 0, [], 0⟩
      [⟨0, 20, 0, 0, 0, [], 0⟩, ⟨1, 9, 0, 0, 0, [], 0⟩, ⟨2, 12, 0, 0, 0, [], 0⟩,
       ⟨3, 12, 0, 0, 0, [], 0⟩, ⟨4, 9, 0, 0, 0, [], 0⟩, ⟨5, 9, 0, 0, 0, [], 0⟩,
       ⟨6, 9, 0, 0, 0, [], 0⟩, ⟨7, 9, 0, 0, 0, [], 0⟩, ⟨8, 9, 0, 0, 0, [], 0⟩,
       ⟨9, 9, 0, 0, 0, [], 0⟩]).length ∧
    (Jsx.isSafeForCut ⟨0, 20, 0, 0, 0, [], 0⟩ ⟨1, 9, 0, 0, 0, [], 0⟩
      [⟨0, 20, 0, 0, 0, [], 0⟩, ⟨1, 9, 0, 0, 0, [], 0⟩, ⟨2, 12, 0, 0, 0, [], 0⟩,
       ⟨3, 12, 0, 0, 0, [], 0⟩, ⟨4, 9, 0, 0, 0, [], 0⟩, ⟨5, 9, 0, 0, 0, [], 0⟩,
       ⟨6, 9, 0, 0, 0, [], 0⟩, ⟨7, 9, 0, 0, 0, [], 0⟩, ⟨8, 9, 0, 0, 0, [], 0⟩,
       ⟨9, 9, 0, 0, 0, [], 0⟩] 8 5 5 = some true ↔
      ((Jsx.sortedOthers ⟨0, 20, 0, 0, 0, [], 0⟩ ⟨1, 9, 0, 0, 0, [], 0⟩
        [⟨0, 20, 0, 0, 0, [], 0⟩, ⟨1, 9, 0, 0, 0, [], 0⟩, ⟨2, 12, 0, 0, 0, [], 0⟩,
         ⟨3, 12, 0, 0, 0, [], 0⟩, ⟨4, 9, 0, 0, 0, [], 0⟩, ⟨5, 9, 0, 0, 0, [], 0⟩,
         ⟨6, 9, 0, 0, 0, [], 0⟩, ⟨7, 9, 0, 0, 0, [], 0⟩, ⟨8, 9, 0, 0, 0, [], 0⟩,
         ⟨9, 9, 0, 0, 0, [], 0⟩]).getD 6 default).points + 3 <
        (⟨0, 20, 0, 0, 0, [], 0⟩ : Player).points + 1) :=
  ⟨rfl, by decide, by decide,
   isSafeForCut_final_round.2.1 ⟨0, 20, 0, 0, 0, [], 0⟩ ⟨1, 9, 0, 0, 0, [], 0⟩
     [⟨0, 20, 0, 0, 0, [], 0⟩, ⟨1, 9, 0, 0, 0, [], 0⟩, ⟨2, 12, 0, 0, 0, [], 0⟩,
      ⟨3, 12, 0, 0, 0, [], 0⟩, ⟨4, 9, 0, 0, 0, [], 0⟩, ⟨5, 9, 0, 0, 0, [], 0⟩,
      ⟨6, 9, 0, 0, 0, [], 0⟩, ⟨7, 9, 0, 0, 0, [], 0⟩, ⟨8, 9, 0, 0, 0, [], 0⟩,
      ⟨9, 9, 0, 0, 0, [], 0⟩] 8 5 5 rfl (by decide) (by decide)⟩

/-- C1 counterexample: in the penultimate regime with `cutSize = 2` and two
others at 100 points, the code declares the 0-point player safe (it compares
against `maxSeventhAfterNRounds`, which answers -1 for fewer than 7 scores),
while the claimed boundary at index `cutSize - 2` of the projected
descending sort is 106, far above the player's 2 points. -/
theorem isSafeForCut_penultimate_claim_false :
    (5 : Int) - 4 = 1 ∧
    (Jsx.sortedOthers ⟨0, 0, 0, 0, 0, [], 0⟩ ⟨1, 0, 0, 0, 0, [], 0⟩
      [⟨0, 0, 0, 0, 0, [], 0⟩, ⟨1, 0, 0, 0, 0, [], 0⟩, ⟨2, 100, 0, 0, 0, [], 0⟩,
       ⟨3, 100, 0, 0, 0, [], 0⟩]).map Player.points = [100, 100] ∧
    Jsx.isSafeForCut ⟨0, 0, 0, 0, 0, [], 0⟩ ⟨1, 0, 0, 0, 0, [], 0⟩
      [⟨0, 0, 0, 0, 0, [], 0⟩, ⟨1, 0, 0, 0, 0, [], 0⟩, ⟨2, 100, 0, 0, 0, [], 0⟩,
       ⟨3, 100, 0, 0, 0, [], 0⟩] 2 4 5 = some true ∧
    claimedPenultimateBoundary [100, 100] 2 = 106 ∧
    ¬((0 : Int) + 2 > claimedPenultimateBoundary [100, 100] 2) := by
  refine ⟨rfl, by decide, by decide, by decide, by decide⟩

/-- C1 amended: penultimate-round regime. For `cutSize ≥ 2` with at least
`cutSize` others, safe iff `player.points + 2` strictly exceeds
`maxSeventhAfterNRounds` of the others' scores: -1 when fewer than 7 others
exist, otherwise the value at the hardcoded index 6 (the cutSize = 8
boundary) of the descending sort of the 2-iteration Swiss projection,
independent of the requested cut size. -/
theorem isSafeForCut_penultimate_regime :
    ∀ (player opponent : Player) (allPlayers : List Player) (cut : Nat)
      (cr tr : Int),
      tr - cr = 1 → 2 ≤ cut →
      cut ≤ (Jsx.sortedOthers player opponent allPlayers).length →
      (Jsx.isSafeForCut player opponent allPlayers cut cr tr = some true ↔
        (if ((Jsx.sortedOthers player opponent allPlayers).map
              Player.points).length < 7 then (-1 : Int)
         else (sortDescI (Jsx.projectRounds
            ((Jsx.sortedOthers player opponent allPlayers).map Player.points)
            2)).getD 6 0) < player.points + 2) := by
  intro player opponent allPlayers cut cr tr hrr h2 hlen
  have hidx : cut - 2 < (Jsx.sortedOthers player opponent allPlayers).length := by
    omega
  simp only [Jsx.isSafeForCut]
  rw [if_neg (by omega :
    ¬((Jsx.sortedOthers player opponent allPlayers).length < cut))]
  rw [jsIndex_natCast_sub_two _ _ h2, List.get?_eq_get hidx]
  simp only [Option.map_some']
  rw [if_neg (by omega : ¬(tr - cr = 0)), if_pos hrr]
  simp only [Option.some_inj, decide_eq_true_eq, Jsx.maxSeventhAfterNRounds]

/-- At most `ceil(count/2)` members per score bucket means at most as many
realistic threats as there are threat scores. -/
theorem realistic_threats_le_length (l : List Int) :
    (l.dedup.map (fun s => (l.count s + 1) / 2)).sum ≤ l.length := by
  calc (l.dedup.map (fun s => (l.count s + 1) / 2)).sum
      ≤ (l.dedup.map (fun s => l.count s)).sum := by
        apply List.sum_le_sum
        intro s hs
        have hpos : 0 < l.count s := List.count_pos_iff.mpr (List.mem_dedup.mp hs)
        omega
    _ = l.length := List.sum_map_count_dedup_eq_length l

/-- C8: earlier-round regime. For `cutSize ≥ 2` and `roundsRemaining ≥ 2`,
the checker answers safe exactly when the bucketed realistic-threat count
(summing `ceil(bucketSize/2)` over current-score buckets of the other
players whose win-out score exceeds the player's score after a draw) is
strictly below the cut; the early return for fewer than `cutSize` others
coincides with this formula. -/
theorem isSafeForCut_earlier_round :
    ∀ (player opponent : Player) (allPlayers : List Player) (cut : Nat)
      (cr tr : Int), 2 ≤ cut → 2 ≤ tr - cr →
      (Jsx.isSafeForCut player opponent allPlayers cut cr tr = some true ↔
        (((allPlayers.filter (fun p =>
            ¬(p.id = player.id ∨ p.id = opponent.id) ∧
            player.points + 1 < p.points + 3 * (1 + (tr - cr)))).map
              Player.points).dedup.map
          (fun s => (((allPlayers.filter (fun p =>
            ¬(p.id = player.id ∨ p.id = opponent.id) ∧
            player.points + 1 < p.points + 3 * (1 + (tr - cr)))).map
              Player.points).count s + 1) / 2)).sum < cut) := by
  intro player opponent allPlayers cut cr tr h2 hrr
  have key : Jsx.isSafeEarlierRound player opponent allPlayers cut
      (player.points + 1) (tr - cr) = true ↔
      (((allPlayers.filter (fun p =>
          ¬(p.id = player.id ∨ p.id = opponent.id) ∧
          player.points + 1 < p.points + 3 * (1 + (tr - cr)))).map
            Player.points).dedup.map
        (fun s => (((allPlayers.filter (fun p =>
          ¬(p.id = player.id ∨ p.id = opponent.id) ∧
          player.points + 1 < p.points + 3 * (1 + (tr - cr)))).map
            Player.points).count s + 1) / 2)).sum < cut := by
    simp only [Jsx.isSafeEarlierRound, decide_eq_true_eq]
  by_cases hlt : (Jsx.sortedOthers player opponent allPlayers).length < cut
  · have hsafe : Jsx.isSafeForCut player opponent allPlayers cut cr tr =
        some true := by
      simp only [Jsx.isSafeForCut]
      rw [if_pos hlt]
    have hsum : (((allPlayers.filter (fun p =>
        ¬(p.id = player.id ∨ p.id = opponent.id) ∧
        player.points + 1 < p.points + 3 * (1 + (tr - cr)))).map
          Player.points).dedup.map
        (fun s => (((allPlayers.filter (fun p =>
        ¬(p.id = player.id ∨ p.id = opponent.id) ∧
        player.points + 1 < p.points + 3 * (1 + (tr - cr)))).map
          Player.points).count s + 1) / 2)).sum < cut := by
      have h1 := realistic_threats_le_length
        ((allPlayers.filter (fun p =>
          ¬(p.id = player.id ∨ p.id = opponent.id) ∧
          player.points + 1 < p.points + 3 * (1 + (tr - cr)))).map Player.points)
      have h2' : ((allPlayers.filter (fun p =>
          ¬(p.id = player.id ∨ p.id = opponent.id) ∧
          player.points + 1 < p.points + 3 * (1 + (tr - cr)))).map
            Player.points).length ≤
          (Jsx.sortedOthers player opponent allPlayers).length := by
        rw [List.length_map, Jsx.sortedOthers,
          (List.perm_insertionSort pairRel _).length_eq]
        rw [← List.countP_eq_length_filter, ← List.countP_eq_length_filter]
        apply List.countP_mono_left
        intro p _ hp
        simp only [decide_eq_true_eq] at hp ⊢
        push_neg at hp
        exact ⟨hp.1.1, hp.1.2⟩
      omega
    rw [hsafe]
    simp only [hsum, iff_true]
  · have hidx : cut - 2 < (Jsx.sortedOthers player opponent allPlayers).length := by
      omega
    simp only [Jsx.isSafeForCut]
    rw [if_neg hlt]
    rw [jsIndex_natCast_sub_two _ _ h2, List.get?_eq_get hidx]
    simp only [Option.map_some']
    rw [if_neg (by omega : ¬(tr - cr = 0)), if_neg (by omega : ¬(tr - cr = 1))]
    rw [Option.some_inj]
    exact key

/-- C8 witness: concrete earlier-round instantiation, hypotheses discharged
and the threat-count side evaluated by `decide`. -/
theorem isSafeForCut_earlier_round_witness :
    2 ≤ 2 ∧ 2 ≤ (5 : Int) - 1 ∧
    Jsx.isSafeForCut ⟨0, 0, 0, 0, 0, [], 0⟩ ⟨1, 0, 0, 0, 0, [], 0⟩
      [⟨0, 0, 0, 0, 0, [], 0⟩, ⟨1, 0, 0, 0, 0, [], 0⟩, ⟨2, 0, 0, 0, 0, [], 0⟩,
       ⟨3, 0, 0, 0, 0, [], 0⟩] 2 1 5 = some true :=
  ⟨by decide, by decide,
   (isSafeForCut_earlier_round ⟨0, 0, 0, 0, 0, [], 0⟩ ⟨1, 0, 0, 0, 0, [], 0⟩
     [⟨0, 0, 0, 0, 0, [], 0⟩, ⟨1, 0, 0, 0, 0, [], 0⟩, ⟨2, 0, 0, 0, 0, [], 0⟩,
      ⟨3, 0, 0, 0, 0, [], 0⟩] 2 1 5 (by decide) (by decide)).mpr (by decide)⟩

/-- C7: with both players present and the intentional-draw branch not taken,
`simulateMatch` partitions the roll range `[0, 100)`: draws on
`[0, drawPercent)`, player-1 wins on `[drawPercent, 50 + drawPercent/2)`,
player-2 wins on `[50 + drawPercent/2, 100)`; the two win intervals have the
same length `50 - drawPercent/2`. -/
theorem simulateMatch_roll_partition :
    ∀ (p1 p2 : Player) (drawPercent rand : Rat) (useID : Bool)
      (allPlayers : List Player) (cr tr : Int) (cutSize : Nat),
      p1 ≠ p2 →
      0 ≤ drawPercent → drawPercent ≤ 100 → 0 ≤ rand → rand < 100 →
      Csv.idDrawCheck p1 p2 useID allPlayers cr tr cutSize = false →
      ((Csv.simulateMatch p1 (some p2) drawPercent useID allPlayers cr tr
          cutSize rand = .draw ↔ rand < drawPercent) ∧
       (Csv.simulateMatch p1 (some p2) drawPercent useID allPlayers cr tr
          cutSize rand = .decisive p1 p2 ↔
          drawPercent ≤ rand ∧ rand < 50 + drawPercent / 2) ∧
       (Csv.simulateMatch p1 (some p2) drawPercent useID allPlayers cr tr
          cutSize rand = .decisive p2 p1 ↔ 50 + drawPercent / 2 ≤ rand) ∧
       (50 + drawPercent / 2) - drawPercent = 50 - drawPercent / 2 ∧
       100 - (50 + drawPercent / 2) = 50 - drawPercent / 2) := by
  intro p1 p2 dp rand useID allPlayers cr tr cutSize hne hdp0 hdp1 hr0 hr1 hid
  have hstep : Csv.simulateMatch p1 (some p2) dp useID allPlayers cr tr
      cutSize rand =
      (if rand < dp then .draw
       else if rand < 50 + dp / 2 then .decisive p1 p2
       else .decisive p2 p1) := by
    simp only [Csv.simulateMatch, hid]
    rw [if_neg (by simp)]
  refine ⟨?_, ?_, ?_, by ring, by ring⟩
  · rw [hstep]
    by_cases h1 : rand < dp
    · rw [if_pos h1]
      exact iff_of_true rfl h1
    · rw [if_neg h1]
      by_cases h2 : rand < 50 + dp / 2
      · rw [if_pos h2]
        exact iff_of_false (by simp) h1
      · rw [if_neg h2]
        exact iff_of_false (by simp) h1
  · rw [hstep]
    by_cases h1 : rand < dp
    · rw [if_pos h1]
      constructor
      · intro hh; exact absurd hh (by simp)
      · rintro ⟨hh, _⟩; linarith
    · rw [if_neg h1]
      by_cases h2 : rand < 50 + dp / 2
      · rw [if_pos h2]
        exact iff_of_true rfl ⟨le_of_not_lt h1, h2⟩
      · rw [if_neg h2]
        constructor
        · intro hh
          injection hh with ha _
          exact absurd ha.symm hne
        · rintro ⟨_, hh2⟩; exact absurd hh2 h2
  · rw [hstep]
    by_cases h1 : rand < dp
    · rw [if_pos h1]
      constructor
      · intro hh; exact absurd hh (by simp)
      · intro hh; linarith
    · rw [if_neg h1]
      by_cases h2 : rand < 50 + dp / 2
      · rw [if_pos h2]
        constructor
        · intro hh; injection hh with ha _; exact absurd ha hne
        · intro hh; linarith
      · rw [if_neg h2]
        exact iff_of_true rfl (le_of_not_lt h2)

/-- C7 witness: a roll of 30 with a 10 percent draw chance is a player-1 win. -/
theorem simulateMatch_roll_partition_witness :
    (⟨0, 0, 0, 0, 0, [], 0⟩ : Player) ≠ ⟨1, 0, 0, 0, 0, [], 0⟩ ∧
    (0 : Rat) ≤ 10 ∧ (10 : Rat) ≤ 100 ∧ (0 : Rat) ≤ 30 ∧ (30 : Rat) < 100 ∧
    Csv.idDrawCheck ⟨0, 0, 0, 0, 0, [], 0⟩ ⟨1, 0, 0, 0, 0, [], 0⟩ false [] 1 5
      8 = false ∧
    Csv.simulateMatch ⟨0, 0, 0, 0, 0, [], 0⟩ (some ⟨1, 0, 0, 0, 0, [], 0⟩) 10
      false [] 1 5 8 30 =
      .decisive ⟨0, 0, 0, 0, 0, [], 0⟩ ⟨1, 0, 0, 0, 0, [], 0⟩ :=
  ⟨by decide, by norm_num, by norm_num, by norm_num, by norm_num, by decide,
   (simulateMatch_roll_partition ⟨0, 0, 0, 0, 0, [], 0⟩ ⟨1, 0, 0, 0, 0, [], 0⟩
     10 30 false [] 1 5 8 (by decide) (by norm_num) (by norm_num) (by norm_num)
     (by norm_num) (by decide)).2.1.mpr ⟨by norm_num, by norm_num⟩⟩

section UpdAtLemmas

theorem updAt_length {α : Type} (l : List α) (i : Nat) (f : α → α) :
    (updAt l i f).length = l.length := by
  induction l generalizing i with
  | nil => rfl
  | cons x rest ih =>
    cases i with
    | zero => rfl
    | succ n => simp [updAt, ih]

theorem get?_updAt {α : Type} (l : List α) (i j : Nat) (f : α → α) :
    (updAt l i f).get? j = if i = j then (l.get? j).map f else l.get? j := by
  induction l generalizing i j with
  | nil => cases i <;> cases j <;> simp [updAt]
  | cons x rest ih =>
    cases i with
    | zero =>
      cases j with
      | zero => simp [updAt]
      | succ m => simp [updAt]
    | succ n =>
      cases j with
      | zero => simp [updAt]
      | succ m =>
        simp only [updAt, List.get?]
        rw [ih]
        by_cases h : n = m
        · subst h; simp
        · rw [if_neg h, if_neg (by omega : ¬(n + 1 = m + 1))]

theorem mem_updAt {α : Type} (l : List α) (i : Nat) (f : α → α) (p : α)
    (h : p ∈ updAt l i f) : p ∈ l ∨ ∃ x ∈ l, p = f x := by
  induction l generalizing i with
  | nil => cases h
  | cons x rest ih =>
    cases i with
    | zero =>
      rcases List.mem_cons.mp h with h1 | h1
      · exact Or.inr ⟨x, List.mem_cons_self .., h1⟩
      · exact Or.inl (List.mem_cons_of_mem _ h1)
    | succ n =>
      rcases List.mem_cons.mp h with h1 | h1
      · exact Or.inl (h1 ▸ List.mem_cons_self ..)
      · rcases ih n h1 with h2 | ⟨y, hy, hyp⟩
        · exact Or.inl (List.mem_cons_of_mem _ h2)
        · exact Or.inr ⟨y, List.mem_cons_of_mem _ hy, hyp⟩

theorem sum_map_updAt {α : Type} (g : α → Int) :
    ∀ (l : List α) (i : Nat) (f : α → α) (x : α), l.get? i = some x →
      ((updAt l i f).map g).sum = (l.map g).sum + (g (f x) - g x) := by
  intro l
  induction l with
  | nil => intro i f x h; cases h
  | cons y rest ih =>
    intro i f x h
    cases i with
    | zero =>
      simp only [List.get?] at h
      obtain rfl := Option.some_inj.mp h
      simp [updAt]
      ring
    | succ n =>
      simp only [List.get?] at h
      simp only [updAt, List.map_cons, List.sum_cons, ih n f x h]
      ring

end UpdAtLemmas

/-- Total points over a player array. -/
def sumPoints (l : List Player) : Int := (l.map Player.points).sum

/-- Points a match result adds across all players: 3 for a bye, 2 for a
draw, 3 for a decisive match. -/
def resultPoints : MatchResult → Int
  | .bye _ => 3
  | .draw _ _ => 2
  | .decisive _ _ => 3

/-- Number of byes awarded in a round trace. -/
def numByes (rs : List MatchResult) : Nat :=
  rs.countP (fun r => match r with | .bye _ => true | _ => false)

/-- Number of drawn matches in a round trace. -/
def numDraws (rs : List MatchResult) : Nat :=
  rs.countP (fun r => match r with | .draw _ _ => true | _ => false)

/-- Number of decisive matches in a round trace. -/
def numDecisive (rs : List MatchResult) : Nat :=
  rs.countP (fun r => match r with | .decisive _ _ => true | _ => false)

/-- Byes awarded to the player at array index `i` in a round trace. -/
def byesFor (rs : List MatchResult) (i : Nat) : Nat :=
  rs.countP (fun r => match r with | .bye j => decide (j = i) | _ => false)

/-- Ids mentioned by a match result stay below `n`. -/
def resultIdsBelow (n : Nat) : MatchResult → Prop
  | .bye i => i < n
  | .draw i j => i < n ∧ j < n
  | .decisive w l => w < n ∧ l < n

/-- The points invariant of C6: `points == 3*wins + draws`. -/
def pointsInv (p : Player) : Prop :=
  p.points = 3 * (p.wins : Int) + (p.draws : Int)

theorem applyResult_length (state : List Player) (r : MatchResult) :
    (Csv.applyResult state r).length = state.length := by
  cases r <;> simp [Csv.applyResult, updAt_length]

/-- Updates never change a player's id, so the id-equals-index discipline of
`runSimulations`' arrays survives a round. -/
theorem applyResult_wf (state : List Player) (r : MatchResult)
    (hwf : ∀ i x, state.get? i = some x → x.id = i) :
    ∀ i x, (Csv.applyResult state r).get? i = some x → x.id = i := by
  have key : ∀ (s : List Player) (j : Nat) (f : Player → Player),
      (∀ y, (f y).id = y.id) →
      (∀ i x, s.get? i = some x → x.id = i) →
      ∀ i x, (updAt s j f).get? i = some x → x.id = i := by
    intro s j f hf hs i x hx
    rw [get?_updAt] at hx
    by_cases h : j = i
    · rw [if_pos h] at hx
      rcases hsome : s.get? i with _ | y
      · rw [hsome] at hx; cases hx
      · rw [hsome] at hx
        obtain rfl := Option.some_inj.mp hx
        rw [hf]
        exact hs i y hsome
    · rw [if_neg h] at hx
      exact hs i x hx
  cases r with
  | bye i => exact key state i _ (fun y => rfl) hwf
  | draw i j =>
    exact key _ j _ (fun y => rfl) (key state i _ (fun y => rfl) hwf)
  | decisive w l =>
    exact key _ l _ (fun y => rfl) (key state w _ (fun y => rfl) hwf)

/-- Each applied result adds exactly its `resultPoints` to the total. -/
theorem sumPoints_applyResult (state : List Player) (r : MatchResult)
    (hr : resultIdsBelow state.length r) :
    sumPoints (Csv.applyResult state r) = sumPoints state + resultPoints r := by
  cases r with
  | bye i =>
    have hi : i < state.length := hr
    unfold sumPoints Csv.applyResult
    rw [sum_map_updAt Player.points _ i _ _ (List.get?_eq_get hi)]
    simp only [resultPoints]
    ring
  | draw i j =>
    obtain ⟨hi, hj⟩ := hr
    unfold sumPoints Csv.applyResult
    have hj1 : j < (updAt state i (fun p =>
        { p with points := p.points + 1, draws := p.draws + 1,
                 opponents := p.opponents ++ [j] })).length := by
      rw [updAt_length]; exact hj
    rw [sum_map_updAt Player.points _ j _ _ (List.get?_eq_get hj1),
        sum_map_updAt Player.points _ i _ _ (List.get?_eq_get hi)]
    simp only [resultPoints]
    ring
  | decisive w l =>
    obtain ⟨hw, hl⟩ := hr
    unfold sumPoints Csv.applyResult
    have hl1 : l < (updAt state w (fun p =>
        { p with points := p.points + 3, wins := p.wins + 1,
                 opponents := p.opponents ++ [l] })).length := by
      rw [updAt_length]; exact hl
    rw [sum_map_updAt Player.points _ l _ _ (List.get?_eq_get hl1),
        sum_map_updAt Player.points _ w _ _ (List.get?_eq_get hw)]
    simp only [resultPoints]
    ring

/-- A decisive `simulateMatch` outcome names the two participants, one way
or the other. -/
theorem simulateMatch_decisive_cases (q1 q2 : Player) (dp : Rat)
    (useID : Bool) (aps : List Player) (cr tr : Int) (cs : Nat) (rand : Rat)
    (w l : Player)
    (h : Csv.simulateMatch q1 (some q2) dp useID aps cr tr cs rand =
      .decisive w l) :
    (w = q1 ∧ l = q2) ∨ (w = q2 ∧ l = q1) := by
  simp only [Csv.simulateMatch] at h
  split at h
  · simp at h
  · split at h
    · simp at h
    · split at h
      · injection h with h1 h2
        exact Or.inl ⟨h1.symm, h2.symm⟩
      · injection h with h1 h2
        exact Or.inr ⟨h1.symm, h2.symm⟩

/-- Under the id-equals-index discipline, every result a pairing resolves to
mentions only in-range indices. -/
theorem resolvePair_valid (state : List Player) (dp : Rat) (useID : Bool)
    (cs : Nat) (rnd nr : Int) (gmo : Nat → Nat → Rat)
    (pr : Player × Option Player) (r : MatchResult)
    (hwf : ∀ i x, state.get? i = some x → x.id = i)
    (hpr : pr.1.id < state.length ∧
      ∀ q, pr.2 = some q → q.id < state.length)
    (h : Csv.resolvePair state dp useID cs rnd nr gmo pr = some r) :
    resultIdsBelow state.length r := by
  rcases pr with ⟨p1, _ | p2⟩
  · simp only [Csv.resolvePair] at h
    obtain rfl := Option.some_inj.mp h
    exact hpr.1
  · simp only [Csv.resolvePair] at h
    rcases hq1 : state.get? p1.id with _ | q1
    · rw [hq1, Option.none_bind] at h
      cases h
    rcases hq2 : state.get? p2.id with _ | q2
    · rw [hq1, Option.some_bind, hq2] at h
      cases h
    rw [hq1, Option.some_bind, hq2, Option.map_some'] at h
    rcases hsm : Csv.simulateMatch q1 (some q2) dp useID state rnd nr cs
        (gmo p1.id p2.id) with w' | - | ⟨w', l'⟩
    · rw [hsm] at h
      obtain rfl := Option.some_inj.mp h
      exact hpr.1
    · rw [hsm] at h
      obtain rfl := Option.some_inj.mp h
      exact ⟨hpr.1, hpr.2 p2 rfl⟩
    · rw [hsm] at h
      obtain rfl := Option.some_inj.mp h
      have h1 : q1.id = p1.id := hwf _ _ hq1
      have h2 : q2.id = p2.id := hwf _ _ hq2
      rcases simulateMatch_decisive_cases q1 q2 dp useID state rnd nr cs
          (gmo p1.id p2.id) w' l' hsm with ⟨rfl, rfl⟩ | ⟨rfl, rfl⟩
      · exact ⟨h1 ▸ hpr.1, h2 ▸ hpr.2 p2 rfl⟩
      · exact ⟨h2 ▸ hpr.2 p2 rfl, h1 ▸ hpr.1⟩

/-- C6 conservation, fold form: the points a round adds are
`3*decisive + 2*draws + 3*byes` over the round's result trace. -/
theorem processRoundAux_conservation (dp : Rat) (useID : Bool) (cs : Nat)
    (rnd nr : Int) (gmo : Nat → Nat → Rat) :
    ∀ (prs : List (Player × Option Player)) (state : List Player),
      (∀ i x, state.get? i = some x → x.id = i) →
      (∀ pr ∈ prs, pr.1.id < state.length ∧
        ∀ q, pr.2 = some q → q.id < state.length) →
      sumPoints (Csv.processRoundAux dp useID cs rnd nr gmo state prs).1 =
        sumPoints state +
          3 * (numDecisive (Csv.processRoundAux dp useID cs rnd nr gmo state
            prs).2 : Int) +
          2 * (numDraws (Csv.processRoundAux dp useID cs rnd nr gmo state
            prs).2 : Int) +
          3 * (numByes (Csv.processRoundAux dp useID cs rnd nr gmo state
            prs).2 : Int) := by
  intro prs
  induction prs with
  | nil =>
    intro state _ _
    simp [Csv.processRoundAux, numDecisive, numDraws, numByes, List.countP_nil]
  | cons pr rest ih =>
    intro state hwf hrange
    simp only [Csv.processRoundAux]
    rcases hres : Csv.resolvePair state dp useID cs rnd nr gmo pr with _ | r
    · rw [Option.elim_none]
      exact ih state hwf (fun pr' h' => hrange pr' (List.mem_cons_of_mem _ h'))
    · rw [Option.elim_some]
      have hvalid := resolvePair_valid state dp useID cs rnd nr gmo pr r hwf
        (hrange pr (List.mem_cons_self ..)) hres
      have hwf' := applyResult_wf state r hwf
      have hrange' : ∀ pr' ∈ rest, pr'.1.id < (Csv.applyResult state r).length ∧
          ∀ q, pr'.2 = some q → q.id < (Csv.applyResult state r).length := by
        rw [applyResult_length]
        exact fun pr' h' => hrange pr' (List.mem_cons_of_mem _ h')
      have hrec := ih (Csv.applyResult state r) hwf' hrange'
      simp only at hrec ⊢
      rw [hrec, sumPoints_applyResult state r hvalid]
      cases r <;>
        simp [numDecisive, numDraws, numByes, resultPoints, List.countP_cons] <;>
        push_cast <;> ring

/-- Fresh player arrays obey the id-equals-index discipline. -/
theorem initPlayers_wf (n : Nat) :
    ∀ i x, (Csv.initPlayers n).get? i = some x → x.id = i := by
  intro i x h
  unfold Csv.initPlayers at h
  rw [List.get?_map] at h
  by_cases hi : i < n
  · rw [List.get?_range hi, Option.map_some'] at h
    obtain rfl := Option.some_inj.mp h
    rfl
  · rw [List.get?_eq_none.mpr (by simpa using Nat.le_of_not_lt hi),
      Option.map_none'] at h
    cases h

/-- C6: point conservation. Fresh players satisfy `points == 3*wins+draws`;
the invariant is preserved by every processed round; and on an id-consistent
state with in-range pairings the total points added by a round equal
`3*decisive + 2*drawn + 3*byes` of the round's results. -/
theorem processRound_point_conservation :
    (∀ n, ∀ p ∈ Csv.initPlayers n, pointsInv p) ∧
    (∀ (state : List Player) (prs : List (Player × Option Player)) (dp : Rat)
      (useID : Bool) (cs : Nat) (rnd nr : Int) (gmo : Nat → Nat → Rat),
      (∀ p ∈ state, pointsInv p) →
      ∀ p ∈ Csv.processRound state prs dp useID cs rnd nr gmo, pointsInv p) ∧
    (∀ (state : List Player) (prs : List (Player × Option Player)) (dp : Rat)
      (useID : Bool) (cs : Nat) (rnd nr : Int) (gmo : Nat → Nat → Rat),
      (∀ i x, state.get? i = some x → x.id = i) →
      (∀ pr ∈ prs, pr.1.id < state.length ∧
        ∀ q, pr.2 = some q → q.id < state.length) →
      sumPoints (Csv.processRound state prs dp useID cs rnd nr gmo) =
        sumPoints state +
          3 * (numDecisive (Csv.processRoundAux dp useID cs rnd nr gmo state
            prs).2 : Int) +
          2 * (numDraws (Csv.processRoundAux dp useID cs rnd nr gmo state
            prs).2 : Int) +
          3 * (numByes (Csv.processRoundAux dp useID cs rnd nr gmo state
            prs).2 : Int)) := by
  refine ⟨?_, ?_, ?_⟩
  · intro n p hp
    simp only [Csv.initPlayers, List.mem_map] at hp
    obtain ⟨j, _, rfl⟩ := hp
    simp [pointsInv]
  · intro state prs dp useID cs rnd nr gmo
    have key : ∀ (l : List Player) (r : MatchResult),
        (∀ p ∈ l, pointsInv p) → ∀ p ∈ Csv.applyResult l r, pointsInv p := by
      have upd : ∀ (l : List Player) (j : Nat) (f : Player → Player),
          (∀ y, pointsInv y → pointsInv (f y)) →
          (∀ p ∈ l, pointsInv p) → ∀ p ∈ updAt l j f, pointsInv p := by
        intro l j f hf hl p hp
        rcases mem_updAt l j f p hp with h | ⟨x, hx, rfl⟩
        · exact hl p h
        · exact hf x (hl x hx)
      intro l r hl
      cases r with
      | bye i =>
        refine upd l i _ ?_ hl
        intro y hy
        simp only [pointsInv] at hy ⊢
        push_cast
        omega
      | draw i j =>
        refine upd _ j _ ?_ (upd l i _ ?_ hl) <;>
          · intro y hy
            simp only [pointsInv] at hy ⊢
            push_cast
            omega
      | decisive w l' =>
        refine upd _ l' _ ?_ (upd l w _ ?_ hl) <;>
          · intro y hy
            simp only [pointsInv] at hy ⊢
            push_cast
            omega
    suffices h : ∀ (ps : List (Player × Option Player)) (st : List Player),
        (∀ p ∈ st, pointsInv p) →
        ∀ p ∈ (Csv.processRoundAux dp useID cs rnd nr gmo st ps).1, pointsInv p by
      intro hstate
      exact h prs state hstate
    intro ps
    induction ps with
    | nil => intro st hst; simpa [Csv.processRoundAux] using hst
    | cons pr rest ih =>
      intro st hst
      simp only [Csv.processRoundAux]
      rcases hres : Csv.resolvePair st dp useID cs rnd nr gmo pr with _ | r
      · rw [Option.elim_none]
        exact ih st hst
      · rw [Option.elim_some]
        exact ih (Csv.applyResult st r) (key st r hst)
  · intro state prs dp useID cs rnd nr gmo hwf hrange
    exact processRoundAux_conservation dp useID cs rnd nr gmo prs state hwf hrange

/-- C6 witness: the invariant holds of a fresh three-player array, survives a
concrete round, and that round's points balance its results. -/
theorem processRound_point_conservation_witness :
    (∀ p ∈ Csv.initPlayers 3, pointsInv p) ∧
    (∀ p ∈ Csv.processRound (Csv.initPlayers 3)
      (Csv.pairPlayers (Csv.initPlayers 3)) 5 false 8 1 3 (fun _ _ => 0),
      pointsInv p) ∧
    sumPoints (Csv.processRound (Csv.initPlayers 3)
        (Csv.pairPlayers (Csv.initPlayers 3)) 5 false 8 1 3 (fun _ _ => 0)) =
      sumPoints (Csv.initPlayers 3) +
        3 * (numDecisive (Csv.processRoundAux 5 false 8 1 3 (fun _ _ => 0)
          (Csv.initPlayers 3) (Csv.pairPlayers (Csv.initPlayers 3))).2 : Int) +
        2 * (numDraws (Csv.processRoundAux 5 false 8 1 3 (fun _ _ => 0)
          (Csv.initPlayers 3) (Csv.pairPlayers (Csv.initPlayers 3))).2 : Int) +
        3 * (numByes (Csv.processRoundAux 5 false 8 1 3 (fun _ _ => 0)
          (Csv.initPlayers 3) (Csv.pairPlayers (Csv.initPlayers 3))).2 : Int) :=
  ⟨processRound_point_conservation.1 3,
   processRound_point_conservation.2.1 (Csv.initPlayers 3)
     (Csv.pairPlayers (Csv.initPlayers 3)) 5 false 8 1 3 (fun _ _ => 0)
     (processRound_point_conservation.1 3),
   processRound_point_conservation.2.2 (Csv.initPlayers 3)
     (Csv.pairPlayers (Csv.initPlayers 3)) 5 false 8 1 3 (fun _ _ => 0)
     (initPlayers_wf 3)
     (by
       have hpp : Csv.pairPlayers (Csv.initPlayers 3) =
           [(⟨0, 0, 0, 0, 0, [], 0⟩, some ⟨1, 0, 0, 0, 0, [], 0⟩),
            (⟨2, 0, 0, 0, 0, [], 0⟩, none)] := by decide
       rw [hpp]
       intro pr hpr
       rcases List.mem_cons.mp hpr with rfl | hpr
       · refine ⟨by decide, ?_⟩
         rintro q hq
         obtain rfl := Option.some_inj.mp hq
         decide
       rcases List.mem_cons.mp hpr with rfl | hpr
       · exact ⟨by decide, by rintro q hq; cases hq⟩
       · cases hpr)⟩

/-- Reading an updated slot: either the index was hit (and the old value is
transformed) or the read is unaffected. -/
theorem get?_updAt_cases {α : Type} (l : List α) (j i : Nat) (f : α → α)
    (x : α) (hx : (updAt l j f).get? i = some x) :
    (j = i ∧ ∃ y, l.get? i = some y ∧ x = f y) ∨ (j ≠ i ∧ l.get? i = some x) := by
  rw [get?_updAt] at hx
  by_cases h : j = i
  · rw [if_pos h] at hx
    rcases hy : l.get? i with _ | y
    · rw [hy] at hx; cases hx
    · rw [hy, Option.map_some'] at hx
      exact Or.inl ⟨h, y, rfl, (Option.some_inj.mp hx).symm⟩
  · rw [if_neg h] at hx
    exact Or.inr ⟨h, hx⟩

/-- One applied result keeps the bye-corrected match-count ledger balanced:
a bye adds a win and a bye tick, a draw adds a draw and an opponents entry
to each side, a decisive result adds a win or loss and an opponents entry. -/
theorem applyResult_match_count (state : List Player) (r : MatchResult)
    (k : Nat → Nat)
    (h : ∀ i x, state.get? i = some x →
      x.opponents.length + k i = x.wins + x.losses + x.draws) :
    ∀ i x, (Csv.applyResult state r).get? i = some x →
      x.opponents.length + (k i + byesFor [r] i) =
        x.wins + x.losses + x.draws := by
  intro i x hx
  cases r with
  | bye j =>
    have hbye : byesFor [MatchResult.bye j] i = if j = i then 1 else 0 := by
      by_cases hj : j = i <;> simp [byesFor, List.countP_cons, List.countP_nil, hj]
    rcases get?_updAt_cases state j i _ x hx with ⟨hj, y, hy, rfl⟩ | ⟨hj, hy⟩
    · have := h i y hy
      rw [hbye, if_pos hj]
      show y.opponents.length + (k i + 1) = y.wins + 1 + y.losses + y.draws
      omega
    · have := h i x hy
      rw [hbye, if_neg hj]
      omega
  | draw a b =>
    have hbye : byesFor [MatchResult.draw a b] i = 0 := by
      simp [byesFor, List.countP_cons, List.countP_nil]
    rw [hbye]
    rcases get?_updAt_cases _ b i _ x hx with ⟨hb, y, hy, rfl⟩ | ⟨hb, hy⟩ <;>
      rcases get?_updAt_cases state a i _ _ hy with ⟨ha, z, hz, rfl⟩ | ⟨ha, hz⟩ <;>
      · have := h i _ hz
        try simp only [List.length_append, List.length_cons, List.length_nil]
        omega
  | decisive w l =>
    have hbye : byesFor [MatchResult.decisive w l] i = 0 := by
      simp [byesFor, List.countP_cons, List.countP_nil]
    rw [hbye]
    rcases get?_updAt_cases _ l i _ x hx with ⟨hb, y, hy, rfl⟩ | ⟨hb, hy⟩ <;>
      rcases get?_updAt_cases state w i _ _ hy with ⟨ha, z, hz, rfl⟩ | ⟨ha, hz⟩ <;>
      · have := h i _ hz
        try simp only [List.length_append, List.length_cons, List.length_nil]
        omega

/-- Splitting a trace splits its bye count. -/
theorem byesFor_cons (r : MatchResult) (rs : List MatchResult) (i : Nat) :
    byesFor (r :: rs) i = byesFor [r] i + byesFor rs i := by
  simp [byesFor, List.countP_cons, List.countP_nil]
  omega

/-- C2 amended, fold form: after a round, each slot's opponents count plus
its accumulated byes equals `wins + losses + draws`. -/
theorem processRoundAux_match_count (dp : Rat) (useID : Bool) (cs : Nat)
    (rnd nr : Int) (gmo : Nat → Nat → Rat) :
    ∀ (prs : List (Player × Option Player)) (state : List Player)
      (k : Nat → Nat),
      (∀ i x, state.get? i = some x →
        x.opponents.length + k i = x.wins + x.losses + x.draws) →
      ∀ i x, (Csv.processRoundAux dp useID cs rnd nr gmo state prs).1.get? i =
          some x →
        x.opponents.length +
          (k i + byesFor (Csv.processRoundAux dp useID cs rnd nr gmo state
            prs).2 i) = x.wins + x.losses + x.draws := by
  intro prs
  induction prs with
  | nil =>
    intro state k hk i x hx
    simp only [Csv.processRoundAux] at hx ⊢
    have := hk i x hx
    simp [byesFor, List.countP_nil]
    omega
  | cons pr rest ih =>
    intro state k hk i x hx
    simp only [Csv.processRoundAux] at hx ⊢
    rcases hres : Csv.resolvePair state dp useID cs rnd nr gmo pr with _ | r
    · rw [hres] at hx
      rw [Option.elim_none] at hx ⊢
      exact ih state k hk i x hx
    · rw [hres] at hx
      rw [Option.elim_some] at hx ⊢
      simp only at hx ⊢
      have hrec := ih (Csv.applyResult state r)
        (fun i => k i + byesFor [r] i)
        (applyResult_match_count state r k hk) i x hx
      simp only at hrec
      rw [byesFor_cons]
      omega

/-- C2 counterexample: in round 1 of a three-player tournament the third
player receives a bye, ending the round with one win but no opponents
entry, so `len(opponents) == wins + losses + draws` fails after a bye
round. -/
theorem processRound_bye_breaks_match_count :
    ((Csv.processRound (Csv.initPlayers 3)
        (Csv.pairPlayers (Csv.initPlayers 3)) 5 false 8 1 3
        (fun _ _ => 0)).getD 2 default).opponents.length = 0 ∧
    ((Csv.processRound (Csv.initPlayers 3)
        (Csv.pairPlayers (Csv.initPlayers 3)) 5 false 8 1 3
        (fun _ _ => 0)).getD 2 default).wins +
      ((Csv.processRound (Csv.initPlayers 3)
        (Csv.pairPlayers (Csv.initPlayers 3)) 5 false 8 1 3
        (fun _ _ => 0)).getD 2 default).losses +
      ((Csv.processRound (Csv.initPlayers 3)
        (Csv.pairPlayers (Csv.initPlayers 3)) 5 false 8 1 3
        (fun _ _ => 0)).getD 2 default).draws = 1 := by
  constructor <;> decide

/-- C2 amended: the match-count invariant holds with byes credited: fresh
players satisfy it with zero byes, and every processed round preserves
`len(opponents) + byesReceived == wins + losses + draws` slot by slot; the
spec's equation itself holds exactly for players never awarded a bye. -/
theorem processRound_opponents_match_count :
    (∀ n, ∀ p ∈ Csv.initPlayers n,
      p.opponents.length = p.wins + p.losses + p.draws) ∧
    (∀ (state : List Player) (prs : List (Player × Option Player)) (dp : Rat)
      (useID : Bool) (cs : Nat) (rnd nr : Int) (gmo : Nat → Nat → Rat)
      (k : Nat → Nat),
      (∀ i x, state.get? i = some x →
        x.opponents.length + k i = x.wins + x.losses + x.draws) →
      ∀ i x, (Csv.processRound state prs dp useID cs rnd nr gmo).get? i =
          some x →
        x.opponents.length +
          (k i + byesFor (Csv.processRoundAux dp useID cs rnd nr gmo state
            prs).2 i) = x.wins + x.losses + x.draws) := by
  constructor
  · intro n p hp
    simp only [Csv.initPlayers, List.mem_map] at hp
    obtain ⟨j, _, rfl⟩ := hp
    rfl
  · intro state prs dp useID cs rnd nr gmo k hk
    exact processRoundAux_match_count dp useID cs rnd nr gmo prs state k hk

/-- C2 amended witness: the bye-corrected ledger balances after the concrete
three-player round of the counterexample scenario. -/
theorem processRound_opponents_match_count_witness :
    (∀ i x, (Csv.initPlayers 3).get? i = some x →
      x.opponents.length + 0 = x.wins + x.losses + x.draws) ∧
    (∀ i x, (Csv.processRound (Csv.initPlayers 3)
        (Csv.pairPlayers (Csv.initPlayers 3)) 5 false 8 1 3
        (fun _ _ => 0)).get? i = some x →
      x.opponents.length +
        (0 + byesFor (Csv.processRoundAux 5 false 8 1 3 (fun _ _ => 0)
          (Csv.initPlayers 3) (Csv.pairPlayers (Csv.initPlayers 3))).2 i) =
        x.wins + x.losses + x.draws) := by
  have hbase : ∀ i x, (Csv.initPlayers 3).get? i = some x →
      x.opponents.length + 0 = x.wins + x.losses + x.draws := by
    intro i x h
    have hx : x ∈ Csv.initPlayers 3 := List.get?_mem h
    have h3 : Csv.initPlayers 3 =
        [⟨0, 0, 0, 0, 0, [], 0⟩, ⟨1, 0, 0, 0, 0, [], 0⟩,
         ⟨2, 0, 0, 0, 0, [], 0⟩] := by decide
    rw [h3] at hx
    simp only [List.mem_cons, List.not_mem_nil, or_false] at hx
    rcases hx with rfl | rfl | rfl <;> rfl
  exact ⟨hbase,
    processRound_opponents_match_count.2 (Csv.initPlayers 3)
      (Csv.pairPlayers (Csv.initPlayers 3)) 5 false 8 1 3 (fun _ _ => 0)
      (fun _ => 0) hbase⟩

/-- Sequential adjacent pairing of an already-sorted sequence: consecutive
pairs, leftover dropped. -/
def chunkPairs : List Player → List (Player × Player)
  | [] => []
  | [_] => []
  | p :: q :: rest => (p, q) :: chunkPairs rest

/-- The used-id list the pairing scan accumulates (innermost additions
first). -/
def chunkUsed : List Player → List Nat
  | [] => []
  | [_] => []
  | p :: q :: rest => chunkUsed rest ++ [q.id, p.id]

/-- Sequential adjacent pairing with a trailing bye when the length is odd. -/
def chunkWithBye : List Player → List (Player × Option Player)
  | [] => []
  | [p] => [(p, none)]
  | p :: q :: rest => (p, some q) :: chunkWithBye rest

/-- On a list of distinct-id players none of which is already used, the
pairing scan performs exactly sequential adjacent pairing. -/
theorem pairPass_eq_chunk :
    ∀ (l : List Player) (used : List Nat),
      (l.map Player.id).Nodup → (∀ x ∈ l, x.id ∉ used) →
      Csv.pairPass used l = (chunkPairs l, chunkUsed l ++ used) := by
  intro l
  induction l using chunkPairs.induct with
  | case1 =>
    intro used _ _
    simp [Csv.pairPass, chunkPairs, chunkUsed]
  | case2 p =>
    intro used _ hdisj
    have hp : p.id ∉ used := hdisj p (List.mem_cons_self ..)
    simp [Csv.pairPass, chunkPairs, chunkUsed, Csv.findUnused, hp]
  | case3 p q rest ih =>
    intro used hnodup hdisj
    have hp : p.id ∉ used := hdisj p (List.mem_cons_self ..)
    have hq : q.id ∉ used := hdisj q (List.mem_cons_of_mem _ (List.mem_cons_self ..))
    rw [List.map_cons, List.nodup_cons] at hnodup
    obtain ⟨hp1, hnodup2⟩ := hnodup
    rw [List.map_cons, List.nodup_cons] at hnodup2
    obtain ⟨hq1, hrestnodup⟩ := hnodup2
    have hpq : p.id ≠ q.id := fun h =>
      hp1 (List.mem_cons.mpr (Or.inl h))
    have hprest : ∀ x ∈ rest, x.id ≠ p.id := fun x hx h =>
      hp1 (List.mem_cons.mpr (Or.inr (List.mem_map.mpr ⟨x, hx, h⟩)))
    have hqrest : ∀ x ∈ rest, x.id ≠ q.id := fun x hx h =>
      hq1 (List.mem_map.mpr ⟨x, hx, h⟩)
    have hrestdisj : ∀ x ∈ rest, x.id ∉ q.id :: p.id :: used := by
      intro x hx
      simp only [List.mem_cons]
      push_neg
      exact ⟨hqrest x hx, hprest x hx,
        hdisj x (List.mem_cons_of_mem _ (List.mem_cons_of_mem _ hx))⟩
    have hrec := ih (q.id :: p.id :: used) hrestnodup hrestdisj
    simp only [Csv.pairPass, if_neg hp, Csv.findUnused, if_neg hq]
    rw [if_pos (List.mem_cons_self ..)]
    rw [hrec]
    simp [chunkPairs, chunkUsed]

theorem chunkWithBye_length :
    ∀ l : List Player, (chunkWithBye l).length = (l.length + 1) / 2 := by
  intro l
  induction l using chunkPairs.induct with
  | case1 => simp [chunkWithBye]
  | case2 p => simp [chunkWithBye]
  | case3 p q rest ih =>
    simp only [chunkWithBye, List.length_cons, ih]
    omega

theorem chunkWithBye_even (l : List Player) (h : Even l.length) :
    chunkWithBye l = (chunkPairs l).map (fun pr => (pr.1, some pr.2)) := by
  induction l using chunkPairs.induct with
  | case1 => rfl
  | case2 p => simp [Nat.even_iff] at h
  | case3 p q rest ih =>
    have hr : Even rest.length := by
      simp only [List.length_cons] at h
      rw [Nat.even_iff] at h ⊢
      omega
    simp [chunkWithBye, chunkPairs, ih hr]

theorem chunkWithBye_odd (l : List Player) (h : Odd l.length) :
    ∃ b, l.getLast? = some b ∧
      chunkWithBye l =
        (chunkPairs l).map (fun pr => (pr.1, some pr.2)) ++ [(b, none)] := by
  induction l using chunkPairs.induct with
  | case1 => simp [Nat.odd_iff] at h
  | case2 p => exact ⟨p, rfl, rfl⟩
  | case3 p q rest ih =>
    have hr : Odd rest.length := by
      simp only [List.length_cons] at h
      rw [Nat.odd_iff] at h ⊢
      omega
    obtain ⟨b, hb, hform⟩ := ih hr
    have hne : rest ≠ [] := by
      intro hcon
      rw [hcon] at hr
      simp [Nat.odd_iff] at hr
    refine ⟨b, ?_, ?_⟩
    · rw [List.getLast?_cons_cons]
      rcases rest with _ | ⟨r0, rest'⟩
      · exact absurd rfl hne
      · rw [List.getLast?_cons_cons]
        exact hb
    · simp [chunkWithBye, chunkPairs, hform]

theorem chunkUsed_perm_even (l : List Player) (h : Even l.length) :
    (chunkUsed l).Perm (l.map Player.id) := by
  induction l using chunkPairs.induct with
  | case1 => simp [chunkUsed]
  | case2 p => simp [Nat.even_iff] at h
  | case3 p q rest ih =>
    have hr : Even rest.length := by
      simp only [List.length_cons] at h
      rw [Nat.even_iff] at h ⊢
      omega
    have hperm : (chunkUsed rest ++ [q.id, p.id]).Perm
        (p.id :: q.id :: rest.map Player.id) := by
      refine List.perm_append_comm.trans ?_
      refine (List.Perm.append_left _ (ih hr)).trans ?_
      exact List.Perm.append_right _ (List.Perm.swap _ _ _)
    simpa [chunkUsed] using hperm

theorem chunkUsed_perm_odd (l : List Player) (h : Odd l.length) :
    (chunkUsed l).Perm (l.dropLast.map Player.id) := by
  induction l using chunkPairs.induct with
  | case1 => simp [Nat.odd_iff] at h
  | case2 p => simp [chunkUsed]
  | case3 p q rest ih =>
    have hr : Odd rest.length := by
      simp only [List.length_cons] at h
      rw [Nat.odd_iff] at h ⊢
      omega
    have hne : rest ≠ [] := by
      intro hcon
      rw [hcon] at hr
      simp [Nat.odd_iff] at hr
    have hdrop : (p :: q :: rest).dropLast = p :: q :: rest.dropLast := by
      rcases rest with _ | ⟨r0, rest'⟩
      · exact absurd rfl hne
      · simp [List.dropLast]
    have hperm : (chunkUsed rest ++ [q.id, p.id]).Perm
        (p.id :: q.id :: rest.dropLast.map Player.id) := by
      refine List.perm_append_comm.trans ?_
      refine (List.Perm.append_left _ (ih hr)).trans ?_
      exact List.Perm.append_right _ (List.Perm.swap _ _ _)
    rw [hdrop]
    simpa [chunkUsed] using hperm

theorem chunkWithBye_bye_count :
    ∀ l : List Player,
      (chunkWithBye l).countP (fun pr => pr.2.isNone) =
        if Odd l.length then 1 else 0 := by
  intro l
  induction l using chunkPairs.induct with
  | case1 => simp [chunkWithBye, Nat.odd_iff]
  | case2 p => simp [chunkWithBye, Nat.odd_iff, List.countP_cons]
  | case3 p q rest ih =>
    have hparity : Odd (p :: q :: rest).length ↔ Odd rest.length := by
      simp only [List.length_cons]
      rw [Nat.odd_iff, Nat.odd_iff]
      omega
    simp only [chunkWithBye, List.countP_cons, ih]
    by_cases h : Odd rest.length
    · rw [if_pos h, if_pos (hparity.mpr h)]
      simp
    · rw [if_neg h, if_neg (fun hc => h (hparity.mp hc))]
      simp

theorem chunkWithBye_occurrence :
    ∀ l : List Player, l.Nodup → ∀ p : Player,
      (chunkWithBye l).countP
        (fun pr => decide (pr.1 = p ∨ pr.2 = some p)) =
        if p ∈ l then 1 else 0 := by
  intro l
  induction l using chunkPairs.induct with
  | case1 => intro _ p; simp [chunkWithBye]
  | case2 x =>
    intro _ p
    by_cases h : x = p
    · subst h
      simp [chunkWithBye, List.countP_cons]
    · simp [chunkWithBye, List.countP_cons, h, Ne.symm h]
  | case3 x y rest ih =>
    intro hnodup p
    rw [List.nodup_cons] at hnodup
    obtain ⟨hx, hnodup2⟩ := hnodup
    rw [List.nodup_cons] at hnodup2
    obtain ⟨hy, hrest⟩ := hnodup2
    have hxy : x ≠ y := fun h => hx (h ▸ List.mem_cons_self ..)
    have hxrest : x ∉ rest := fun h => hx (List.mem_cons_of_mem _ h)
    simp only [chunkWithBye, List.countP_cons, ih hrest p]
    by_cases hpx : x = p
    · subst hpx
      rw [if_neg hxrest, if_pos (List.mem_cons_self ..)]
      simp
    · by_cases hpy : y = p
      · subst hpy
        rw [if_neg hy,
          if_pos (List.mem_cons_of_mem _ (List.mem_cons_self ..))]
        simp
      · have : ¬((x = p ∨ some y = some p)) := by
          intro hc
          rcases hc with hc | hc
          · exact hpx hc
          · exact hpy (Option.some_inj.mp hc)
        rw [decide_eq_false this]
        by_cases hmem : p ∈ rest
        · rw [if_pos hmem, if_pos (List.mem_cons_of_mem _
            (List.mem_cons_of_mem _ hmem))]
          simp
        · rw [if_neg hmem]
          rw [if_neg (show ¬(p ∈ x :: y :: rest) from by
            simp only [List.mem_cons]
            push_neg
            exact ⟨fun h => hpx h.symm, fun h => hpy h.symm, hmem⟩)]
          simp

theorem mem_chunkWithBye :
    ∀ (l : List Player) (pr : Player × Option Player), pr ∈ chunkWithBye l →
      pr.1 ∈ l ∧ ∀ q, pr.2 = some q → q ∈ l := by
  intro l
  induction l using chunkPairs.induct with
  | case1 => intro pr hpr; cases hpr
  | case2 x =>
    intro pr hpr
    rcases List.mem_cons.mp hpr with rfl | hpr
    · exact ⟨List.mem_cons_self .., by rintro q ⟨⟩⟩
    · cases hpr
  | case3 x y rest ih =>
    intro pr hpr
    rcases List.mem_cons.mp hpr with rfl | hpr
    · refine ⟨List.mem_cons_self .., ?_⟩
      rintro q hq
      obtain rfl := Option.some_inj.mp hq
      exact List.mem_cons_of_mem _ (List.mem_cons_self ..)
    · obtain ⟨h1, h2⟩ := ih pr hpr
      exact ⟨List.mem_cons_of_mem _ (List.mem_cons_of_mem _ h1),
        fun q hq => List.mem_cons_of_mem _ (List.mem_cons_of_mem _ (h2 q hq))⟩

theorem chunkWithBye_getLast_odd (l : List Player) (h : Odd l.length) :
    ∃ b, l.getLast? = some b ∧ (chunkWithBye l).getLast? = some (b, none) := by
  obtain ⟨b, hb, hform⟩ := chunkWithBye_odd l h
  refine ⟨b, hb, ?_⟩
  rw [hform]
  rcases hcase : (chunkPairs l).map (fun pr => (pr.1, some pr.2)) with _ | ⟨z, zs⟩
  · simp
  · rw [List.getLast?_concat]

/-- In a sorted list every element is related to the last one, for a
reflexive relation. -/
theorem sorted_rel_getLast {r : Player → Player → Prop} :
    ∀ (l : List Player), List.Sorted r l → (∀ x : Player, r x x) →
      ∀ b, l.getLast? = some b → ∀ q ∈ l, r q b := by
  intro l
  induction l with
  | nil =>
    intro _ _ b hb
    cases hb
  | cons x rest ih =>
    intro hsorted hrefl b hb q hq
    rcases rest with _ | ⟨y, rest'⟩
    · have hxb : x = b := by simpa using hb
      have hqx : q = x := by simpa using hq
      rw [hqx, hxb]
      exact hrefl b
    · rw [List.getLast?_cons_cons] at hb
      rw [List.sorted_cons] at hsorted
      rcases List.mem_cons.mp hq with rfl | hq2
      · exact hsorted.1 b (List.mem_of_getLast?_eq_some hb)
      · exact ih hsorted.2 hrefl b hb q hq2

/-- A search that fails on all but the last element finds the last element. -/
theorem find?_eq_getLast (s : List Player) (p : Player → Bool) (b : Player)
    (hb : s.getLast? = some b) (hdrop : ∀ x ∈ s.dropLast, p x = false)
    (hpb : p b = true) : s.find? p = some b := by
  have hsplit : s.dropLast ++ [b] = s := List.dropLast_append_getLast? b hb
  calc s.find? p = (s.dropLast ++ [b]).find? p := by rw [hsplit]
    _ = (s.dropLast.find? p).or ([b].find? p) := List.find?_append
    _ = some b := by
        rw [List.find?_eq_none.mpr (fun x hx => by simp [hdrop x hx])]
        rw [List.find?_cons_of_pos _ hpb]
        rfl

/-- The pairing function is exactly sequential adjacent pairing of the
sorted sequence, with a trailing bye for an odd field. -/
theorem pairPlayers_eq_chunkWithBye (l : List Player)
    (hl : (l.map Player.id).Nodup) :
    Csv.pairPlayers l = chunkWithBye (List.insertionSort pairRel l) := by
  have hperm : (List.insertionSort pairRel l).Perm l :=
    List.perm_insertionSort pairRel l
  have hsnodup : ((List.insertionSort pairRel l).map Player.id).Nodup :=
    ((hperm.map Player.id).nodup_iff).mpr hl
  have hpass := pairPass_eq_chunk (List.insertionSort pairRel l) [] hsnodup
    (by simp)
  simp only [Csv.pairPlayers, hpass, List.append_nil]
  generalize List.insertionSort pairRel l = s at hsnodup ⊢
  rcases Nat.even_or_odd s.length with hev | hodd
  · have hfull : (chunkUsed s).Perm (s.map Player.id) :=
      chunkUsed_perm_even _ hev
    have hnodupUsed : (chunkUsed s).Nodup := hfull.nodup_iff.mpr hsnodup
    have hlen : (chunkUsed s).dedup.length = s.length := by
      rw [List.dedup_eq_self.mpr hnodupUsed, hfull.length_eq, List.length_map]
    rw [if_neg (by rw [hlen]; omega)]
    exact (chunkWithBye_even _ hev).symm
  · have hne : s ≠ [] := by
      intro hcon
      rw [hcon] at hodd
      simp [Nat.odd_iff] at hodd
    obtain ⟨b, hb⟩ : ∃ b, s.getLast? = some b := by
      cases hcase : s.getLast? with
      | none => exact absurd (List.getLast?_eq_none_iff.mp hcase) hne
      | some b => exact ⟨b, rfl⟩
    have hsplit : s.dropLast ++ [b] = s := List.dropLast_append_getLast? b hb
    have hmapsplit : (s.dropLast).map Player.id ++ [b.id] = s.map Player.id := by
      conv_rhs => rw [← hsplit]
      simp
    have hdl : (chunkUsed s).Perm ((s.dropLast).map Player.id) :=
      chunkUsed_perm_odd _ hodd
    have hnodupUsed : (chunkUsed s).Nodup := by
      refine hdl.nodup_iff.mpr ?_
      refine List.Nodup.sublist ?_ hsnodup
      exact (List.dropLast_sublist _).map Player.id
    have hbid : b.id ∉ chunkUsed s := by
      intro hmem
      have hmem2 : b.id ∈ (s.dropLast).map Player.id := hdl.mem_iff.mp hmem
      have hne2 : ((s.dropLast).map Player.id ++ [b.id]).Nodup := by
        rw [hmapsplit]
        exact hsnodup
      rw [List.nodup_append] at hne2
      exact hne2.2.2 hmem2 (List.mem_singleton.mpr rfl)
    have hlen : (chunkUsed s).dedup.length = s.length - 1 := by
      rw [List.dedup_eq_self.mpr hnodupUsed, hdl.length_eq, List.length_map,
        List.length_dropLast]
    have hlpos : 0 < s.length := List.length_pos.mpr hne
    rw [if_pos (by rw [hlen]; omega)]
    have hfind : s.find? (fun p => decide (p.id ∉ chunkUsed s)) = some b := by
      refine find?_eq_getLast s _ b hb ?_ ?_
      · intro x hx
        simp only [decide_eq_false_iff_not]
        push_neg
        exact hdl.mem_iff.mpr (List.mem_map.mpr ⟨x, hx, rfl⟩)
      · simp only [decide_eq_true_eq]
        exact hbid
    rw [hfind, Option.elim_some]
    obtain ⟨b2, hb2, hform⟩ := chunkWithBye_odd _ hodd
    obtain rfl : b2 = b := by
      rw [hb] at hb2
      exact (Option.some_inj.mp hb2).symm
    exact hform.symm

/-- C5: pairing completeness. For distinct-id players, `pairPlayers`
produces `ceil(N/2)` pairings, is exactly sequential adjacent pairing of the
(points descending, id ascending) sort, places every player in exactly one
pairing, mentions only input players, awards exactly one bye iff N is odd,
and gives the bye to the lowest-ranked player of the sort order. -/
theorem pairPlayers_completeness :
    ∀ (players : List Player), (players.map Player.id).Nodup →
      (Csv.pairPlayers players).length = (players.length + 1) / 2 ∧
      Csv.pairPlayers players =
        chunkWithBye (List.insertionSort pairRel players) ∧
      (∀ p ∈ players, (Csv.pairPlayers players).countP
        (fun pr => decide (pr.1 = p ∨ pr.2 = some p)) = 1) ∧
      (∀ pr ∈ Csv.pairPlayers players,
        pr.1 ∈ players ∧ ∀ q, pr.2 = some q → q ∈ players) ∧
      ((Csv.pairPlayers players).countP (fun pr => pr.2.isNone) = 1 ↔
        Odd players.length) ∧
      (Odd players.length → ∃ b,
        (List.insertionSort pairRel players).getLast? = some b ∧
        (Csv.pairPlayers players).getLast? = some (b, none) ∧
        ∀ q ∈ players, pairRel q b) := by
  intro players hids
  have hperm : (List.insertionSort pairRel players).Perm players :=
    List.perm_insertionSort pairRel players
  have hlen : (List.insertionSort pairRel players).length = players.length :=
    hperm.length_eq
  have heq := pairPlayers_eq_chunkWithBye players hids
  have hsnodup_ids : ((List.insertionSort pairRel players).map Player.id).Nodup :=
    ((hperm.map Player.id).nodup_iff).mpr hids
  have hsnodup : (List.insertionSort pairRel players).Nodup :=
    List.Nodup.of_map Player.id hsnodup_ids
  refine ⟨?_, heq, ?_, ?_, ?_, ?_⟩
  · rw [heq, chunkWithBye_length, hlen]
  · intro p hp
    rw [heq, chunkWithBye_occurrence _ hsnodup p,
      if_pos (hperm.mem_iff.mpr hp)]
  · intro pr hpr
    rw [heq] at hpr
    obtain ⟨h1, h2⟩ := mem_chunkWithBye _ pr hpr
    exact ⟨hperm.mem_iff.mp h1, fun q hq => hperm.mem_iff.mp (h2 q hq)⟩
  · rw [heq, chunkWithBye_bye_count, hlen]
    by_cases h : Odd players.length
    · simp [h]
    · simp [h]
  · intro hodd
    have hodds : Odd (List.insertionSort pairRel players).length := by
      rw [hlen]; exact hodd
    obtain ⟨b, hb, hlast⟩ := chunkWithBye_getLast_odd _ hodds
    refine ⟨b, hb, by rw [heq]; exact hlast, ?_⟩
    intro q hq
    exact sorted_rel_getLast _ (List.sorted_insertionSort pairRel players)
      (fun x => Or.inr ⟨rfl, le_refl _⟩) b hb q (hperm.mem_iff.mpr hq)

/-- C5 witness: the pairing facts at a concrete three-player field. -/
theorem pairPlayers_completeness_witness :
    ((Csv.initPlayers 3).map Player.id).Nodup ∧
    (Csv.pairPlayers (Csv.initPlayers 3)).length = (3 + 1) / 2 :=
  ⟨by decide, (pairPlayers_completeness (Csv.initPlayers 3) (by decide)).1⟩

/-- Membership in a record distribution: exactly the positive observed sample
values, mapped to their exact percentage. -/
theorem recordDistribution_mem (counts : List Nat) (N : Nat) (v : Nat) (r : Rat) :
    (v, r) ∈ Jsx.recordDistribution counts N ↔
      0 < v ∧ v ∈ counts ∧ r = (counts.count v : Rat) * 100 / (N : Rat) := by
  unfold Jsx.recordDistribution
  rw [List.mem_map]
  constructor
  · rintro ⟨k, hk, hkeq⟩
    obtain ⟨hk1, hk2⟩ := Prod.mk.injEq .. ▸ hkeq
    subst hk1
    have hmem := List.mem_dedup.mp hk
    rw [List.mem_filter] at hmem
    exact ⟨by simpa using hmem.2, hmem.1, hk2.symm⟩
  · rintro ⟨hv, hmem, hr⟩
    refine ⟨v, ?_, by rw [hr]⟩
    rw [List.mem_dedup, List.mem_filter]
    exact ⟨hmem, by simpa using hv⟩

/-- The percentages of a record distribution sum to the fraction of samples
that are positive (zero samples contribute no bucket). -/
theorem recordDistribution_sum (counts : List Nat) (N : Nat) :
    ((Jsx.recordDistribution counts N).map Prod.snd).sum =
      (((counts.filter (fun c => decide (0 < c))).length : Rat) * 100 / (N : Rat)) := by
  unfold Jsx.recordDistribution
  rw [List.map_map]
  have hcong : ((counts.filter (fun c => decide (0 < c))).dedup).map
      (Prod.snd ∘ fun v => (v, (counts.count v : Rat) * 100 / (N : Rat))) =
      ((counts.filter (fun c => decide (0 < c))).dedup).map
        (fun v => ((counts.filter (fun c => decide (0 < c))).count v : Rat)
          * (100 / (N : Rat))) := by
    apply List.map_congr_left
    intro v hv
    have hmem := List.mem_dedup.mp hv
    rw [List.mem_filter] at hmem
    have hc : (counts.filter (fun c => decide (0 < c))).count v = counts.count v :=
      List.count_filter hmem.2
    simp only [Function.comp]
    rw [hc]
    ring
  rw [hcong, List.sum_map_mul_right]
  have hcast : (((counts.filter (fun c => decide (0 < c))).dedup).map
      (fun v => ((counts.filter (fun c => decide (0 < c))).count v : Rat))).sum =
      ((((counts.filter (fun c => decide (0 < c))).dedup).map
        (fun v => (counts.filter (fun c => decide (0 < c))).count v)).sum : Rat) := by
    rw [Nat.cast_list_sum, List.map_map]
    rfl
  rw [hcast, List.sum_map_count_dedup_eq_length]
  ring

/-- C4 counterexample: with two trials, one containing a 3-0 player and one
whose only player went 0-3, the 3-0 threshold's samples are `[1, 0]`, yet the
distribution holds only the bucket 1 at 50 percent: the observed value 0 is
not a bucket and the percentages sum to 50, not 100. -/
theorem record_distribution_drops_zero :
    ([[⟨0, 9, 3, 0, 0, [], 0⟩], [⟨0, 0, 0, 3, 0, [], 0⟩]] :
        List (List Player)).map
      (fun tr => Jsx.recordAndBetterCount tr ⟨3, 0, 0⟩) = [1, 0] ∧
    Jsx.recordDistribution [1, 0] 2 = [(1, 50)] ∧
    ¬((0 : Nat) ∈ (Jsx.recordDistribution [1, 0] 2).map Prod.fst) ∧
    ((Jsx.recordDistribution [1, 0] 2).map Prod.snd).sum ≠ 100 ∧
    (Jsx.processRecordResults
        [[⟨0, 9, 3, 0, 0, [], 0⟩], [⟨0, 0, 0, 3, 0, [], 0⟩]] 2 3).head? =
      some (⟨3, 0, 0⟩,
        Jsx.recordDistribution
          (([[⟨0, 9, 3, 0, 0, [], 0⟩], [⟨0, 0, 0, 3, 0, [], 0⟩]] :
              List (List Player)).map
            (fun tr => Jsx.recordAndBetterCount tr ⟨3, 0, 0⟩)) 2) := by
  have hdist : Jsx.recordDistribution [1, 0] 2 = [(1, 50)] := by
    unfold Jsx.recordDistribution
    norm_num
  refine ⟨by decide, hdist, ?_, ?_, rfl⟩
  · rw [hdist]; decide
  · rw [hdist]; norm_num

/-- C4 amended: every distribution produced by the record analysis maps
exactly the positive observed per-trial counts to their exact percentage of
trials; trials with count zero contribute no bucket, so the percentages sum
to `100 * (number of positive trials) / numSimulations` rather than 100. -/
theorem record_distribution_positive_buckets :
    ∀ (allSimResults : List (List Player)) (numSimulations numRounds : Nat)
      (record : Jsx.RecordPat) (dist : List (Nat × Rat)),
      (record, dist) ∈ Jsx.processRecordResults allSimResults numSimulations
        numRounds →
      dist = Jsx.recordDistribution
        (allSimResults.map (fun tr => Jsx.recordAndBetterCount tr record))
        numSimulations ∧
      (∀ v r, (v, r) ∈ dist → 0 < v ∧
        v ∈ allSimResults.map (fun tr => Jsx.recordAndBetterCount tr record) ∧
        r = ((allSimResults.map
            (fun tr => Jsx.recordAndBetterCount tr record)).count v : Rat) *
          100 / (numSimulations : Rat)) ∧
      (∀ v, 0 < v →
        v ∈ allSimResults.map (fun tr => Jsx.recordAndBetterCount tr record) →
        v ∈ dist.map Prod.fst) ∧
      (dist.map Prod.snd).sum =
        (((allSimResults.map
            (fun tr => Jsx.recordAndBetterCount tr record)).filter
          (fun c => decide (0 < c))).length : Rat) * 100 / (numSimulations : Rat) := by
  intro allSimResults numSimulations numRounds record dist hmem
  have hdist : dist = Jsx.recordDistribution
      (allSimResults.map (fun tr => Jsx.recordAndBetterCount tr record))
      numSimulations := by
    rw [Jsx.processRecordResults, List.mem_filterMap] at hmem
    obtain ⟨a, _, ha⟩ := hmem
    by_cases he : (Jsx.recordDistribution
        (allSimResults.map (fun tr => Jsx.recordAndBetterCount tr a))
        numSimulations).isEmpty
    · rw [if_pos he] at ha
      exact absurd ha (by simp)
    · rw [if_neg he, Option.some_inj] at ha
      obtain ⟨h1, h2⟩ := Prod.mk.injEq .. ▸ ha
      subst h1
      exact h2.symm
  subst hdist
  refine ⟨rfl, ?_, ?_, recordDistribution_sum _ _⟩
  · intro v r hvr
    exact (recordDistribution_mem _ _ _ _).mp hvr
  · intro v hv hvmem
    have : (v, ((allSimResults.map
        (fun tr => Jsx.recordAndBetterCount tr record)).count v : Rat) *
        100 / (numSimulations : Rat)) ∈ Jsx.recordDistribution
        (allSimResults.map (fun tr => Jsx.recordAndBetterCount tr record))
        numSimulations :=
      (recordDistribution_mem _ _ _ _).mpr ⟨hv, hvmem, rfl⟩
    rw [List.mem_map]
    exact ⟨_, this, rfl⟩

/-- C4 amended witness: the first produced distribution of the concrete
two-trial batch satisfies the amended summation law. -/
theorem record_distribution_positive_buckets_witness :
    ((⟨3, 0, 0⟩, Jsx.recordDistribution
        (([[⟨0, 9, 3, 0, 0, [], 0⟩], [⟨0, 0, 0, 3, 0, [], 0⟩]] :
            List (List Player)).map
          (fun tr => Jsx.recordAndBetterCount tr ⟨3, 0, 0⟩)) 2) ∈
      Jsx.processRecordResults
        [[⟨0, 9, 3, 0, 0, [], 0⟩], [⟨0, 0, 0, 3, 0, [], 0⟩]] 2 3) ∧
    ((Jsx.recordDistribution
        (([[⟨0, 9, 3, 0, 0, [], 0⟩], [⟨0, 0, 0, 3, 0, [], 0⟩]] :
            List (List Player)).map
          (fun tr => Jsx.recordAndBetterCount tr ⟨3, 0, 0⟩)) 2).map
      Prod.snd).sum =
      (((([[⟨0, 9, 3, 0, 0, [], 0⟩], [⟨0, 0, 0, 3, 0, [], 0⟩]] :
            List (List Player)).map
          (fun tr => Jsx.recordAndBetterCount tr ⟨3, 0, 0⟩)).filter
        (fun c => decide (0 < c))).length : Rat) * 100 / ((2 : Nat) : Rat) :=
  ⟨List.mem_of_mem_head? (by exact rfl),
   (record_distribution_positive_buckets
     [[⟨0, 9, 3, 0, 0, [], 0⟩], [⟨0, 0, 0, 3, 0, [], 0⟩]] 2 3 ⟨3, 0, 0⟩ _
     (List.mem_of_mem_head? (by exact rfl))).2.2.2⟩

/-- C1 amended witness: concrete penultimate-round instantiation with all
hypotheses discharged. -/
theorem isSafeForCut_penultimate_regime_witness :
    (5 : Int) - 4 = 1 ∧ 2 ≤ 2 ∧
    2 ≤ (Jsx.sortedOthers ⟨0, 0, 0, 0, 0, [], 0⟩ ⟨1, 0, 0, 0, 0, [], 0⟩
      [⟨0, 0, 0, 0, 0, [], 0⟩, ⟨1, 0, 0, 0, 0, [], 0⟩, ⟨2, 100, 0, 0, 0, [], 0⟩,
       ⟨3, 100, 0, 0, 0, [], 0⟩]).length ∧
    (Jsx.isSafeForCut ⟨0, 0, 0, 0, 0, [], 0⟩ ⟨1, 0, 0, 0, 0, [], 0⟩
      [⟨0, 0, 0, 0, 0, [], 0⟩, ⟨1, 0, 0, 0, 0, [], 0⟩, ⟨2, 100, 0, 0, 0, [], 0⟩,
       ⟨3, 100, 0, 0, 0, [], 0⟩] 2 4 5 = some true ↔
      (if ((Jsx.sortedOthers ⟨0, 0, 0, 0, 0, [], 0⟩ ⟨1, 0, 0, 0, 0, [], 0⟩
            [⟨0, 0, 0, 0, 0, [], 0⟩, ⟨1, 0, 0, 0, 0, [], 0⟩,
             ⟨2, 100, 0, 0, 0, [], 0⟩, ⟨3, 100, 0, 0, 0, [], 0⟩]).map
            Player.points).length < 7 then (-1 : Int)
       else (sortDescI (Jsx.projectRounds
          ((Jsx.sortedOthers ⟨0, 0, 0, 0, 0, [], 0⟩ ⟨1, 0, 0, 0, 0, [], 0⟩
            [⟨0, 0, 0, 0, 0, [], 0⟩, ⟨1, 0, 0, 0, 0, [], 0⟩,
             ⟨2, 100, 0, 0, 0, [], 0⟩, ⟨3, 100, 0, 0, 0, [], 0⟩]).map
            Player.points) 2)).getD 6 0) <
        (⟨0, 0, 0, 0, 0, [], 0⟩ : Player).points + 2) :=
  ⟨rfl, by decide, by decide,
   isSafeForCut_penultimate_regime ⟨0, 0, 0, 0, 0, [], 0⟩ ⟨1, 0, 0, 0, 0, [], 0⟩
     [⟨0, 0, 0, 0, 0, [], 0⟩, ⟨1, 0, 0, 0, 0, [], 0⟩, ⟨2, 100, 0, 0, 0, [], 0⟩,
      ⟨3, 100, 0, 0, 0, [], 0⟩] 2 4 5 rfl (by decide) (by decide)⟩

/-- Opponent win rate of one opponents entry, as the spec words it:
`(opponent.wins + 0.5*opponent.draws) / (opponent.wins + opponent.losses +
opponent.draws)`, with 0 for a missing opponent or one with zero games. -/
def specOwpTerm (playerScores : List Player) (oppId : Nat) : Rat :=
  (playerScores.get? oppId).elim 0 (fun opponent =>
    if 0 < opponent.wins + opponent.losses + opponent.draws then
      ((opponent.wins : Rat) + (1 / 2) * (opponent.draws : Rat)) /
        ((opponent.wins + opponent.losses + opponent.draws : Nat) : Rat)
    else 0)

/-- Opponent win percentage as the spec words it: the arithmetic mean of the
per-entry win rates, 0 for a player with no opponents. -/
def specOwp (playerScores : List Player) (opponents : List Nat) : Rat :=
  if opponents = [] then 0
  else (opponents.map (specOwpTerm playerScores)).sum / (opponents.length : Rat)

/-- The ranking code's OWP computation agrees with the spec's arithmetic
mean. -/
theorem computeOwp_eq_specOwp (ps : List Player) (q : Player) :
    Csv.computeOwp ps q = specOwp ps q.opponents := by
  simp only [Csv.computeOwp, specOwp]
  by_cases h : q.opponents = []
  · rw [h]
    simp
  · have hlen : 0 < q.opponents.length := List.length_pos.mpr h
    rw [if_pos hlen, if_neg h, List.length_map]
    congr 1
    apply congrArg List.sum
    apply List.map_congr_left
    intro oppId _
    unfold specOwpTerm
    rcases hv : ps.get? oppId with _ | o
    · rw [Option.elim_none, Option.elim_none]
    · rw [Option.elim_some, Option.elim_some]
      by_cases hg : 0 < o.wins + o.losses + o.draws
      · rw [if_pos hg, if_pos hg]
        ring
      · rw [if_neg hg, if_neg hg]

/-- C9: ranking correctness and total order. `rankPlayers` permutes the
players (with their OWP field filled in with the spec's arithmetic mean),
sorts by (points descending, OWP descending, id ascending), and for
distinct ids adjacent rows compare strictly. -/
theorem rankPlayers_spec :
    ∀ (playerScores : List Player),
      (Csv.rankPlayers playerScores).Perm (playerScores.map (fun p =>
        { p with opponentWinPercentage := Csv.computeOwp playerScores p })) ∧
      (∀ p ∈ Csv.rankPlayers playerScores,
        p.opponentWinPercentage = specOwp playerScores p.opponents) ∧
      List.Sorted Csv.rankRel (Csv.rankPlayers playerScores) ∧
      ((playerScores.map Player.id).Nodup →
        (Csv.rankPlayers playerScores).Chain' Csv.rankLT) := by
  intro ps
  refine ⟨List.perm_insertionSort _ _, ?_, List.sorted_insertionSort _ _, ?_⟩
  · intro p hp
    have hp2 : p ∈ ps.map (fun q =>
        { q with opponentWinPercentage := Csv.computeOwp ps q }) :=
      (List.perm_insertionSort Csv.rankRel _).mem_iff.mp hp
    rw [List.mem_map] at hp2
    obtain ⟨q, _, rfl⟩ := hp2
    show Csv.computeOwp ps q = specOwp ps q.opponents
    exact computeOwp_eq_specOwp ps q
  · intro hids
    have hsorted : List.Sorted Csv.rankRel (Csv.rankPlayers ps) :=
      List.sorted_insertionSort _ _
    have h1 : ((ps.map (fun q =>
        { q with opponentWinPercentage := Csv.computeOwp ps q })).map
        Player.id) = ps.map Player.id := by
      rw [List.map_map]
      exact List.map_congr_left (fun a _ => rfl)
    have h2 := (List.perm_insertionSort Csv.rankRel (ps.map (fun q =>
      { q with opponentWinPercentage := Csv.computeOwp ps q }))).map Player.id
    rw [h1] at h2
    have hnodup : ((Csv.rankPlayers ps).map Player.id).Nodup :=
      h2.nodup_iff.mpr hids
    have hpw : (Csv.rankPlayers ps).Pairwise (fun a b => a.id ≠ b.id) :=
      List.pairwise_map.mp hnodup
    refine List.Pairwise.chain' ?_
    refine (List.Pairwise.and hsorted hpw).imp ?_
    rintro a b ⟨hrel, hne⟩
    rcases hrel with h | ⟨hp1, hp2⟩
    · exact Or.inl h
    · rcases hp2 with h | ⟨ho1, ho2⟩
      · exact Or.inr ⟨hp1, Or.inl h⟩
      · exact Or.inr ⟨hp1, Or.inr ⟨ho1, lt_of_le_of_ne ho2 hne⟩⟩

/-- C9 witness: concrete standings of a three-player field are strictly
ordered. -/
theorem rankPlayers_spec_witness :
    ((Csv.initPlayers 3).map Player.id).Nodup ∧
    (Csv.rankPlayers (Csv.initPlayers 3)).Chain' Csv.rankLT :=
  ⟨by decide, (rankPlayers_spec (Csv.initPlayers 3)).2.2.2 (by decide)⟩
